import Mathlib

/-!
# daumapi (apis.go): request / decode / encode pipeline

A shallow embedding of `apis.go`.

Go strings and byte slices are sequences of bytes.  They are modelled as Lean
strings that hold one character per byte (code points 0 to 255): an ASCII
literal is its own sequence of bytes, and a byte that is not part of valid UTF-8,
such as 0xFF, is the character `\xff`.  No definition assumes that the bytes
form valid UTF-8; where Go decodes UTF-8 (inside encoding/json), the decoding is
modelled on the bytes.

The package-level variables `buf` and `logger`, the standard output stream, the
requests handed to `client.Do` and the requests the HTTP client makes to the
remote service form an explicit state that every function threads through.
`logger.Fatal` (which ends in `os.Exit(1)`) and a run-time panic are distinct
final outcomes.
-/

namespace Daumapi

/-! ## Process state and outcomes -/

/-- A Go `string` or `[]byte`: one character per byte. -/
abbrev Bytes := String

/-- HTTP header map (`http.Header`, a `map[string][]string`). -/
abbrev Header := List (String × List String)

/-- The part of `*http.Request` that this package touches, as the program hands
it to `client.Do`.  The URL of the request is identified by the text it was
parsed from, fragment included; the fragment is part of the parsed URL but is
never transmitted (see `Request.onWire`). -/
structure Request where
  method : String
  url : String
  header : Header
deriving DecidableEq

/-- A request as the HTTP client makes it to the remote service: the method, the
URL asked for (scheme, host, path and query, identified by the text they were
parsed from; a fragment is never part of it) and the header fields set on the
request by the program.  How net/http writes the request (escaping of the path,
blanks around header values, fields it adds itself such as `Host` and
`User-Agent`) is not modelled, and neither are the connections it sets up: a
request counts once, however the transport transmits it. -/
structure WireRequest where
  method : String
  target : String
  header : Header
deriving DecidableEq

/-- What `ioutil.ReadAll(resp.Body)` yields: the whole body, or an error
after some bytes. -/
inductive BodyRead where
  | complete (data : Bytes)
  | broken (readSoFar : Bytes) (err : String)

/-- What `client.Do(req)` yields: an error, or a response (of any status
code) whose body is still to be read. -/
inductive DoResult where
  | failed (err : String)
  | response (body : BodyRead)

/-- How one request made by the client ends.

* `failed`: no usable response (connection or protocol error);
* `redirect next`: a 3xx response with a `Location` that the client of this
  package (`&http.Client{}`, default redirect policy) follows; `next` is the
  follow-up request net/http derives from it (the location resolved, the header
  fields copied by its rules, a `Referer` added);
* `response`: any other response; its status code is not inspected. -/
inductive Answer where
  | failed (err : String)
  | redirect (next : WireRequest)
  | response (body : BodyRead)

/-- Whether the answer is a redirect that the client follows. -/
def Answer.isRedirect : Answer → Bool
  | .redirect _ => true
  | _ => false

/-- The seven response struct types of `response.go`. -/
inductive Shape where
  | WebResponse
  | VclipResponse
  | ImageResponse
  | BlogResponse
  | TipResponse
  | BookResponse
  | CafeResponse
deriving DecidableEq

/-- Everything `apis.go` depends on and does not define.

* `urlParses`: the checks of `net/url.Parse` other than the control-character
  check, which `http.NewRequest` below performs itself;
* `remote`: the remote service (and the network in between): given the requests
  made so far and the current one, how the current one ends;
* `zeroJSON`: the JSON text of the zero value of each response struct, fixed by
  the field declarations of `response.go`, which is not part of this file. -/
structure Env where
  urlParses : String → Bool
  remote : List WireRequest → WireRequest → Answer
  zeroJSON : Shape → String

/-- Mutable process state: the diagnostic buffer `buf` behind `logger`, the
bytes written to standard output, the requests handed to `client.Do`, and the
requests the HTTP client has made to the remote service. -/
structure State where
  buf : Bytes
  stdout : Bytes
  sent : List Request
  wire : List WireRequest
deriving DecidableEq

/-- Final outcome of running a function of the package. -/
inductive Result (α : Type) where
  /-- Normal return. -/
  | ret (a : α) (st : State)
  /-- Call of `logger.Fatal`: the message is logged and `os.Exit(1)` runs. -/
  | fatal (st : State)
  /-- Run-time panic (here: nil pointer dereference). -/
  | panic (msg : String) (st : State)

/-- State at the end of a run. -/
def Result.state {α : Type} : Result α → State
  | .ret _ st => st
  | .fatal st => st
  | .panic _ st => st

/-- Returned value, if the run returned. -/
def Result.value? {α : Type} : Result α → Option α
  | .ret a _ => some a
  | .fatal _ => none
  | .panic _ _ => none

/-- Whether the run ended in `logger.Fatal`. -/
def Result.isFatal {α : Type} : Result α → Bool
  | .fatal _ => true
  | _ => false

/-- Whether the run ended in a run-time panic. -/
def Result.isPanic {α : Type} : Result α → Bool
  | .panic _ _ => true
  | _ => false

/-- A Go function body: a state transformer with three kinds of outcome. -/
def Proc (α : Type) : Type := State → Result α

/-- Sequencing: the continuation runs only after a normal return. -/
def Proc.bind {α β : Type} (m : Proc α) (f : α → Proc β) : Proc β := fun st =>
  match m st with
  | .ret a st' => f a st'
  | .fatal st' => .fatal st'
  | .panic msg st' => .panic msg st'

instance : Monad Proc where
  pure a := fun st => .ret a st
  bind := Proc.bind

/-! ## fmt and log -/

/-- Operands passed to the `fmt` functions in this file. -/
inductive Operand where
  /-- A `string`, a `[]byte` or an `error` (printed as its text). -/
  | str (s : String)
  /-- An `http.Header`. -/
  | header (h : Header)

/-- Default rendering of an operand under the verbs `%s` and `%v`; a header
prints like any Go map of string slices, `map[k:[v1 v2] ...]`. -/
def Operand.render : Operand → String
  | .str s => s
  | .header h =>
    "map[" ++ " ".intercalate (h.map fun kv => kv.1 ++ ":[" ++ " ".intercalate kv.2 ++ "]") ++ "]"

/-- Worker of `Sprintf`: copies the format, replacing each `%s` or `%v` by the
next operand.  These are the only verbs used in this file, and every format
string of the file consumes exactly the operands it is given. -/
def sprintfAux : List Char → List Operand → List Char
  | [], _ => []
  | [c], _ => [c]
  | c :: d :: rest, args =>
    if c = '%' ∧ (d = 's' ∨ d = 'v') then
      match args with
      | a :: args' => a.render.toList ++ sprintfAux rest args'
      | [] => '%' :: '!' :: d :: "(MISSING)".toList ++ sprintfAux rest []
    else c :: sprintfAux (d :: rest) args

/-- The function `fmt.Sprintf`. -/
def Sprintf (format : String) (args : List Operand) : String :=
  String.mk (sprintfAux format.toList args)

/-- One line as `log.Logger.Output` writes it for
`log.New(&buf, "INFO: ", log.Lshortfile)`: the logger's fixed leading text,
the call site, the message, and a newline unless the message ends in one. -/
def logLine (site : String) (msg : String) : String :=
  "INFO: " ++ site ++ ": " ++ msg ++ (if msg.toList.getLast? = some '\n' then "" else "\n")

/-- The method `logger.Printf`, called from `site` (file:line). -/
def logger.Printf (site : String) (format : String) (args : List Operand) : Proc Unit :=
  fun st => .ret () { st with buf := st.buf ++ logLine site (Sprintf format args) }

/-- The method `logger.Println` with one string operand. -/
def logger.Println (site : String) (msg : String) : Proc Unit :=
  fun st => .ret () { st with buf := st.buf ++ logLine site (msg ++ "\n") }

/-- The method `logger.Fatal(err)`: log the error text, then `os.Exit(1)`. -/
def logger.Fatal {α : Type} (site : String) (err : String) : Proc α :=
  fun st => .fatal { st with buf := st.buf ++ logLine site err }

/-- Dereference of a nil pointer: the run-time panics. -/
def nilDereference {α : Type} : Proc α :=
  fun st => .panic "runtime error: invalid memory address or nil pointer dereference" st

/-- The call `fmt.Print(&buf)`: `*bytes.Buffer` is a `Stringer`, so the whole
unread content of the buffer is written to standard output; the buffer itself
is left as it is. -/
def fmt.PrintBuf : Proc Unit :=
  fun st => .ret () { st with stdout := st.stdout ++ st.buf }

/-! ## net/http -/

/-- The function `stringContainsCTLByte` of `net/url`. -/
def stringContainsCTLByte (s : List Char) : Bool :=
  s.any fun c => decide (c.toNat < 0x20) || decide (c.toNat = 0x7f)

/-- The text before the first `#`, which `url.Parse` cuts off as the fragment
before it parses the rest. -/
def beforeFragment (s : List Char) : List Char :=
  s.takeWhile fun c => !(c == '#')

/-- The function `http.NewRequest`, for a valid method and a nil body.  It fails
exactly when `url.Parse` fails; then the request is nil and the error is set. -/
def http.NewRequest (env : Env) (method : String) (url : String) :
    Option Request × Option String :=
  if stringContainsCTLByte (beforeFragment url.toList) then
    (none, some "net/url: invalid control character in URL")
  else if env.urlParses url then
    (some { method := method, url := url, header := [] }, none)
  else
    (none, some "parse error")

/-- The method `Header.Add`: appends `value` to the values of `key` (the key
`Authorization` is already in canonical form). -/
def Header.add : Header → String → String → Header
  | [], key, value => [(key, [value])]
  | (k, vs) :: rest, key, value =>
    if k = key then (k, vs ++ [value]) :: rest else (k, vs) :: Header.add rest key value

/-- The method `Header.Values`. -/
def Header.values : Header → String → List String
  | [], _ => []
  | (k, vs) :: rest, key => if k = key then vs else Header.values rest key

/-- The request as it is made to the remote service: the URL without its
fragment. -/
def Request.onWire (req : Request) : WireRequest :=
  { method := req.method, target := String.mk (beforeFragment req.url.toList),
    header := req.header }

/-- The function `httpguts.ValidHeaderFieldValue`: no control byte other than
the horizontal tab. -/
def validHeaderFieldValue (v : String) : Bool :=
  v.toList.all fun c =>
    !((decide (c.toNat < 0x20) || decide (c.toNat = 0x7f)) && !(c == ' ' || c == '\t'))

/-- Whether `c` is an ASCII letter. -/
def isLetter (c : Char) : Bool :=
  (decide ('a'.toNat ≤ c.toNat) && decide (c.toNat ≤ 'z'.toNat))
    || (decide ('A'.toNat ≤ c.toNat) && decide (c.toNat ≤ 'Z'.toNat))

/-- Worker of `urlSchemeRest` (`getScheme` of net/url): `acc` is the text read so
far.  `none` when the text has no scheme. -/
def schemeSplit : List Char → List Char → Option (List Char × List Char)
  | _, [] => none
  | acc, c :: rest =>
    if isLetter c then schemeSplit (acc ++ [c]) rest
    else if (decide ('0'.toNat ≤ c.toNat) && decide (c.toNat ≤ '9'.toNat))
        || c == '+' || c == '-' || c == '.' then
      (if acc = [] then none else schemeSplit (acc ++ [c]) rest)
    else if c = ':' then (if acc = [] then none else some (acc, rest))
    else none

/-- The scheme of a URL text, in lower case, and the text after its colon; an
empty scheme and the whole text when there is no scheme. -/
def urlSchemeRest (u : List Char) : List Char × List Char :=
  match schemeSplit [] u with
  | some (scheme, rest) => (scheme.map Char.toLower, rest)
  | none => ([], u)

/-- The text after the last `@` of an authority (all of it when there is none). -/
def afterLastAt : List Char → List Char
  | [] => []
  | c :: rest =>
    if rest.contains '@' then afterLastAt rest
    else if c = '@' then rest
    else c :: rest

/-- The host of a URL text without fragment, as `url.Parse` finds it: empty unless
the text after the scheme starts with `//`; then what stands between `//` and
the next `/` or `?`, after any user information. -/
def urlHost (u : List Char) : List Char :=
  match (urlSchemeRest u).2.takeWhile (fun c => !(c == '?')) with
  | '/' :: '/' :: rest => afterLastAt (rest.takeWhile fun c => !(c == '/'))
  | _ => []

/-- The checks the transport of net/http makes before it sends anything: the
scheme is `http` or `https`, the URL has a host, every header value is valid. -/
def transportAccepts (req : Request) : Bool :=
  ((urlSchemeRest (beforeFragment req.url.toList)).1 = "http".toList
      || (urlSchemeRest (beforeFragment req.url.toList)).1 = "https".toList)
    && !(urlHost (beforeFragment req.url.toList)).isEmpty
    && req.header.all (fun kv => kv.2.all validHeaderFieldValue)

/-- The client makes the request `w` and follows redirects: each request made is
recorded; after ten requests a further redirect is an error
(`defaultCheckRedirect`).  The first argument counts the requests still
allowed. -/
def client.follow (env : Env) : Nat → List WireRequest → WireRequest →
    List WireRequest × DoResult
  | 0, wire, _ => (wire, .failed "stopped after 10 redirects")
  | n + 1, wire, w =>
    match env.remote wire w with
    | .failed err => (wire ++ [w], .failed err)
    | .response body => (wire ++ [w], .response body)
    | .redirect next => client.follow env n (wire ++ [w]) next

/-- What one call of `client.Do(req)` does from the request history `wire`: the
new history and the result.  A request the transport does not accept is not
made. -/
def client.exchange (env : Env) (wire : List WireRequest) (req : Request) :
    List WireRequest × DoResult :=
  if transportAccepts req then client.follow env 10 wire req.onWire
  else (wire, .failed "net/http: request not accepted by the transport")

/-- The call `client.Do(req)` on a fresh `http.Client` (default transport, default
redirect policy). -/
def client.Do (env : Env) (req : Request) : Proc DoResult :=
  fun st => .ret (client.exchange env st.wire req).2
    { st with sent := st.sent ++ [req], wire := (client.exchange env st.wire req).1 }

/-! ## strconv: binary64 numbers -/

/-- A finite IEEE-754 binary64 number: `(-1)^neg * mant * 2^exp`, either zero
(`mant = 0`), subnormal (`mant < 2^52`, `exp = -1074`) or normal
(`2^52 ≤ mant < 2^53`, `-1074 ≤ exp ≤ 971`). -/
structure Float64 where
  neg : Bool
  mant : Nat
  exp : Int
deriving DecidableEq

/-- Value of a digit string in base ten. -/
def digitsToNat (ds : List Char) : Nat :=
  ds.foldl (fun n c => 10 * n + (c.toNat - '0'.toNat)) 0

/-- Worker of `ilog2`. -/
def ilog2Aux : Nat → Nat → Nat
  | 0, _ => 0
  | fuel + 1, n => if n < 2 then 0 else ilog2Aux fuel (n / 2) + 1

/-- Floor of the binary logarithm (0 for 0). -/
def ilog2 (n : Nat) : Nat := ilog2Aux n n

/-- Round the positive rational `num / den` to the nearest binary64 number,
ties to even; `none` when the result exceeds the largest finite number. -/
def roundRatio (num den : Nat) : Option (Nat × Int) :=
  let lg : Int := (ilog2 num : Int) - (ilog2 den : Int)
  -- floor (log2 (num / den)) is lg or lg - 1
  let top : Int := if num * 2 ^ (-lg).toNat ≥ den * 2 ^ lg.toNat then lg else lg - 1
  let e : Int := max (top - 52) (-1074)
  let n := num * 2 ^ (-e).toNat
  let d := den * 2 ^ e.toNat
  let q := n / d
  let r := n % d
  let q := if 2 * r > d ∨ (2 * r = d ∧ q % 2 = 1) then q + 1 else q
  let (q, e) := if q = 2 ^ 53 then (2 ^ 52, e + 1) else (q, e)
  if e > 971 then none else some (q, if q = 0 then 0 else e)

/-- The function `strconv.ParseFloat(s, 64)` on the decimal `digits * 10^e10`:
the nearest binary64 number, `none` for a range error (overflow). -/
def parseFloat (neg : Bool) (digits : Nat) (e10 : Int) : Option Float64 :=
  if digits = 0 then some ⟨neg, 0, 0⟩
  else if e10 > 310 then none
  else if e10 + (ilog2 digits : Int) < -1100 then some ⟨neg, 0, 0⟩
  else
    match roundRatio (digits * 10 ^ e10.toNat) (10 ^ (-e10).toNat) with
    | none => none
    | some (m, e) => some ⟨neg, m, e⟩



/-- Decimal digits of a natural number, most significant first. -/
def natDigits (n : Nat) : List Char := Nat.toDigits 10 n

/-- Remove trailing zeros of a digit string. -/
def stripZeros (ds : List Char) : List Char :=
  (ds.reverse.dropWhile fun c => c == '0').reverse

/-- A decimal `0.d₁d₂…dₙ * 10^dp`, as `strconv` keeps it. -/
structure Decimal where
  digits : List Char
  dp : Int
deriving DecidableEq

/-- Least `j ≥ start` with `v * 10^j ≥ d`, searching at most `fuel` steps. -/
def firstScale : Nat → Nat → Nat → Nat → Nat
  | 0, j, _, _ => j
  | fuel + 1, j, v, d => if v * 10 ^ j ≥ d then j else firstScale fuel (j + 1) v d

/-- Search of the shortest decimal.  `v / den` is the number, `(lo / den, hi / den)` its rounding
interval (closed when `incl`), `k` the decimal exponent of its first digit; digit counts
`n, n + 1, …` are tried in turn. -/
def shortestAux : Nat → Nat → Nat → Nat → Nat → Nat → Bool → Int → Decimal
  | 0, n, v, _, _, den, _, k =>
    let p : Int := k + 1 - n
    let c := (v * 10 ^ (-p).toNat) / (den * 10 ^ p.toNat)
    ⟨stripZeros (natDigits c), (natDigits c).length + p⟩
  | fuel + 1, n, v, lo, hi, den, incl, k =>
    let p : Int := k + 1 - n
    let a := 10 ^ p.toNat
    let b := 10 ^ (-p).toNat
    let unit := a * den
    let c := (v * b) / unit
    let down := v * b - c * unit
    let up := unit - down
    let okDown := if incl then lo * b ≤ c * unit else lo * b < c * unit
    let okUp := if incl then (c + 1) * unit ≤ hi * b else (c + 1) * unit < hi * b
    let pick (c : Nat) : Decimal := ⟨stripZeros (natDigits c), (natDigits c).length + p⟩
    if okDown ∧ okUp then
      if down < up ∨ (down = up ∧ c % 2 = 0) then pick c else pick (c + 1)
    else if okDown then pick c
    else if okUp then pick (c + 1)
    else shortestAux fuel (n + 1) v lo hi den incl k

/-- The shortest decimal that rounds to `mant * 2^exp` (`mant > 0`), and among those of
that length the one closest to it: what `strconv.FormatFloat` with precision -1 computes. -/
def shortestDecimal (mant : Nat) (exp : Int) : Decimal :=
  let s : Int := exp - 2
  let up := 2 ^ s.toNat
  let den := 2 ^ (-s).toNat
  let below := if mant = 2 ^ 52 ∧ exp > -1074 then 1 else 2
  let v := 4 * mant * up
  let lo := (4 * mant - below) * up
  let hi := (4 * mant + 2) * up
  let k : Int := if v ≥ den then ((natDigits (v / den)).length : Int) - 1
    else - (firstScale 400 1 v den : Int)
  shortestAux 17 1 v lo hi den (mant % 2 = 0) k

/-- Digit `i` of a digit string, `0` beyond its end. -/
def digitAt (ds : List Char) (i : Nat) : Char := ds.getD i '0'

/-- The format `%e` with the shortest digits, exponent written as encoding/json leaves it
(sign kept, no padding zero). -/
def fmtE (d : Decimal) : List Char :=
  let e10 := d.dp - 1
  let frac := d.digits.drop 1
  d.digits.take 1 ++ (if frac = [] then [] else '.' :: frac)
    ++ 'e' :: (if e10 < 0 then '-' else '+') :: natDigits e10.natAbs

/-- The format `%f` with the shortest digits. -/
def fmtF (d : Decimal) : List Char :=
  let intPart := if d.dp > 0 then (List.range d.dp.toNat).map (digitAt d.digits) else ['0']
  let nfrac := ((d.digits.length : Int) - d.dp).toNat
  let frac := (List.range nfrac).map fun i =>
    if d.dp + i < 0 then '0' else digitAt d.digits (d.dp + i).toNat
  intPart ++ (if nfrac = 0 then [] else '.' :: frac)

/-- How encoding/json writes a float64: `%e` when the magnitude is below `1e-6` or at least
`1e21`, else `%f`, always with the shortest digits that round-trip. -/
def formatFloat (f : Float64) : List Char :=
  if f.mant = 0 then (if f.neg then ['-', '0'] else ['0'])
  else
    let d := shortestDecimal f.mant f.exp
    let e10 := d.dp - 1
    (if f.neg then ['-'] else []) ++ (if e10 < -6 ∨ e10 ≥ 21 then fmtE d else fmtF d)


/-! ## encoding/json: scanning -/

/-- A number literal as the scanner reads it. -/
structure NumLit where
  neg : Bool
  int : List Char
  frac : List Char
  exp : Option (Bool × List Char)
deriving DecidableEq

/-- Syntax tree of a JSON text; strings are held decoded. -/
inductive Json where
  | null
  | bool (b : Bool)
  | num (lit : NumLit)
  | str (s : String)
  | arr (elems : List Json)
  | obj (members : List (String × Json))

/-- The scanner's `isSpace`. -/
def isSpace (c : Char) : Bool := c == ' ' || c == '\t' || c == '\r' || c == '\n'

/-- Skip insignificant whitespace. -/
def skipSpace : List Char → List Char
  | [] => []
  | c :: cs => if isSpace c then skipSpace cs else c :: cs

/-- Whether `c` is a decimal digit. -/
def isDigit (c : Char) : Bool := decide ('0'.toNat ≤ c.toNat) && decide (c.toNat ≤ '9'.toNat)

/-- Value of a hexadecimal digit. -/
def hexVal (c : Char) : Option Nat :=
  if isDigit c then some (c.toNat - '0'.toNat)
  else if 'a'.toNat ≤ c.toNat ∧ c.toNat ≤ 'f'.toNat then some (c.toNat - 'a'.toNat + 10)
  else if 'A'.toNat ≤ c.toNat ∧ c.toNat ≤ 'F'.toNat then some (c.toNat - 'A'.toNat + 10)
  else none

/-- Value of four hexadecimal digits (`getu4`). -/
def hex4 (a b c d : Char) : Option Nat :=
  match hexVal a, hexVal b, hexVal c, hexVal d with
  | some a, some b, some c, some d => some (((a * 16 + b) * 16 + c) * 16 + d)
  | _, _, _, _ => none

/-- The character a one-letter escape stands for. -/
def simpleEscape (c : Char) : Option Char :=
  if c = '"' then some '"'
  else if c = '\\' then some '\\'
  else if c = '/' then some '/'
  else if c = 'b' then some (Char.ofNat 8)
  else if c = 'f' then some (Char.ofNat 12)
  else if c = 'n' then some '\n'
  else if c = 'r' then some '\r'
  else if c = 't' then some '\t'
  else none

/-- One unit of a string literal: a byte (written literally or by a one-letter
escape) or a `\uXXXX` escape with its 16-bit code. -/
inductive StrUnit where
  | lit (c : Char)
  | esc (code : Nat)
deriving DecidableEq

/-- Put a unit in front of a scanned string body. -/
def pushUnit (u : StrUnit) : Option (List StrUnit × List Char) → Option (List StrUnit × List Char)
  | some (us, r) => some (u :: us, r)
  | none => none

/-- Scan a string literal after its opening quote, up to and including the closing quote. -/
def scanString : List Char → Option (List StrUnit × List Char)
  | [] => none
  | c :: r =>
    if c = '"' then some ([], r)
    else if c = '\\' then
      match r with
      | [] => none
      | e :: r1 =>
        if e = 'u' then
          match r1 with
          | h1 :: h2 :: h3 :: h4 :: r2 =>
            match hex4 h1 h2 h3 h4 with
            | some n => pushUnit (.esc n) (scanString r2)
            | none => none
          | _ => none
        else
          match simpleEscape e with
          | some ch => pushUnit (.lit ch) (scanString r1)
          | none => none
    else if c.toNat < 0x20 then none
    else pushUnit (.lit c) (scanString r)

/-! ### UTF-8 -/

/-- A piece of a byte string as `utf8.DecodeRune` cuts it: the bytes of one validly
encoded character, or a single byte that starts no valid encoding. -/
inductive Segment where
  | rune (bytes : List Char)
  | bad (b : Char)
deriving DecidableEq

/-- For a first byte: how many continuation bytes follow and the range allowed for the
first of them (the table `first` / `acceptRanges` of unicode/utf8); `none` for a byte
that cannot start an encoding. -/
def leadInfo (b : Nat) : Option (Nat × Nat × Nat) :=
  if b < 0x80 then some (0, 0, 0)
  else if 0xC2 ≤ b ∧ b ≤ 0xDF then some (1, 0x80, 0xBF)
  else if b = 0xE0 then some (2, 0xA0, 0xBF)
  else if b = 0xED then some (2, 0x80, 0x9F)
  else if 0xE1 ≤ b ∧ b ≤ 0xEF then some (2, 0x80, 0xBF)
  else if b = 0xF0 then some (3, 0x90, 0xBF)
  else if 0xF1 ≤ b ∧ b ≤ 0xF3 then some (3, 0x80, 0xBF)
  else if b = 0xF4 then some (3, 0x80, 0x8F)
  else none

/-- Worker of `utf8Segments`.  `pending` holds the bytes of an encoding that is not
complete yet, `need` the number of bytes it still lacks and `lo`, `hi` the range allowed
for the next one.  When the next byte does not fit, every pending byte is a bad byte of
its own (decoding restarts one byte further), and the next byte starts afresh. -/
def segmentsAux : List Char → Nat → Nat → Nat → List Char → List Segment
  | pending, _, _, _, [] => pending.map Segment.bad
  | pending, need, lo, hi, b :: rest =>
    if pending ≠ [] ∧ lo ≤ b.toNat ∧ b.toNat ≤ hi then
      if need ≤ 1 then Segment.rune (pending ++ [b]) :: segmentsAux [] 0 0 0 rest
      else segmentsAux (pending ++ [b]) (need - 1) 0x80 0xBF rest
    else
      pending.map Segment.bad ++
        match leadInfo b.toNat with
        | none => Segment.bad b :: segmentsAux [] 0 0 0 rest
        | some (0, _, _) => Segment.rune [b] :: segmentsAux [] 0 0 0 rest
        | some (n + 1, lo', hi') => segmentsAux [b] (n + 1) lo' hi' rest

/-- A byte string cut into validly encoded characters and bad bytes, as repeated calls
of `utf8.DecodeRune` cut it. -/
def utf8Segments (bs : List Char) : List Segment := segmentsAux [] 0 0 0 bs

/-- The function `utf8.Valid`. -/
def validUTF8 (bs : List Char) : Bool :=
  (utf8Segments bs).all fun seg =>
    match seg with
    | .rune _ => true
    | .bad _ => false

/-- The bytes of U+FFFD, the replacement character. -/
def replacementBytes : List Char := [Char.ofNat 0xEF, Char.ofNat 0xBF, Char.ofNat 0xBD]

/-- The function `utf8.EncodeRune`: the bytes of the character with code `cp`; a
surrogate or a code beyond U+10FFFF is encoded as U+FFFD. -/
def encodeRune (cp : Nat) : List Char :=
  if cp < 0x80 then [Char.ofNat cp]
  else if cp < 0x800 then [Char.ofNat (0xC0 + cp / 0x40), Char.ofNat (0x80 + cp % 0x40)]
  else if (0xD800 ≤ cp ∧ cp < 0xE000) ∨ 0x10FFFF < cp then replacementBytes
  else if cp < 0x10000 then
    [Char.ofNat (0xE0 + cp / 0x1000), Char.ofNat (0x80 + cp / 0x40 % 0x40),
      Char.ofNat (0x80 + cp % 0x40)]
  else
    [Char.ofNat (0xF0 + cp / 0x40000), Char.ofNat (0x80 + cp / 0x1000 % 0x40),
      Char.ofNat (0x80 + cp / 0x40 % 0x40), Char.ofNat (0x80 + cp % 0x40)]

/-- Coercion to well-formed UTF-8: every bad byte becomes U+FFFD. -/
def coerceUTF8 (bs : List Char) : List Char :=
  (utf8Segments bs).flatMap fun seg =>
    match seg with
    | .rune bytes => bytes
    | .bad _ => replacementBytes

/-! ### String literals -/

/-- Worker of `expandUnits`; `pending` is a high surrogate whose `\u` escape was the
previous unit. -/
def expandUnitsAux : Option Nat → List StrUnit → List Char
  | none, [] => []
  | some _, [] => replacementBytes
  | none, .lit c :: us => c :: expandUnitsAux none us
  | some _, .lit c :: us => replacementBytes ++ c :: expandUnitsAux none us
  | none, .esc n :: us =>
    if 0xD800 ≤ n ∧ n < 0xDC00 then expandUnitsAux (some n) us
    else encodeRune n ++ expandUnitsAux none us
  | some hi, .esc n :: us =>
    if 0xDC00 ≤ n ∧ n < 0xE000 then
      encodeRune (0x10000 + (hi - 0xD800) * 0x400 + (n - 0xDC00)) ++ expandUnitsAux none us
    else if 0xD800 ≤ n ∧ n < 0xDC00 then replacementBytes ++ expandUnitsAux (some n) us
    else replacementBytes ++ encodeRune n ++ expandUnitsAux none us

/-- The bytes the units of a string literal stand for, escapes resolved: a `\u` escape
of a high surrogate directly followed by one of a low surrogate is the character of
the pair; any other surrogate escape is U+FFFD. -/
def expandUnits (us : List StrUnit) : List Char := expandUnitsAux none us

/-- The Go string a string literal denotes (`unquote`): escapes are resolved and the
bytes written literally are coerced to well-formed UTF-8, each byte that is not part
of a valid encoding becoming U+FFFD.  (The bytes that escapes stand for are valid
encodings of their own, so coercing after resolving gives the same result as the one
pass of `unquote`.) -/
def decodeUnits (us : List StrUnit) : List Char := coerceUTF8 (expandUnits us)

/-- Split off the leading decimal digits. -/
def takeDigits : List Char → List Char × List Char
  | [] => ([], [])
  | c :: cs => if isDigit c then ((takeDigits cs).1.cons c, (takeDigits cs).2) else ([], c :: cs)

/-- Scan the optional exponent of a number. -/
def scanExp (s : List Char) : Option (Option (Bool × List Char) × List Char) :=
  match s with
  | [] => some (none, [])
  | c :: r =>
    if c = 'e' ∨ c = 'E' then
      let (neg, r1) : Bool × List Char :=
        match r with
        | [] => (false, [])
        | d :: r' => if d = '-' then (true, r') else if d = '+' then (false, r') else (false, d :: r')
      let ds := takeDigits r1
      if ds.1 = [] then none else some (some (neg, ds.1), ds.2)
    else some (none, c :: r)

/-- Scan the optional fraction of a number. -/
def scanFrac (s : List Char) : Option (List Char × List Char) :=
  match s with
  | [] => some ([], [])
  | c :: r =>
    if c = '.' then
      let ds := takeDigits r
      if ds.1 = [] then none else some ds
    else some ([], c :: r)

/-- Scan the integer part of a number: a single `0`, or a non-zero digit and more digits. -/
def scanInt (s : List Char) : Option (List Char × List Char) :=
  match s with
  | [] => none
  | c :: r =>
    if c = '0' then some (['0'], r)
    else if isDigit c then some (takeDigits (c :: r))
    else none

/-- Scan a number literal. -/
def scanNumber (s : List Char) : Option (NumLit × List Char) :=
  let (neg, s1) : Bool × List Char :=
    match s with
    | [] => (false, [])
    | c :: r => if c = '-' then (true, r) else (false, c :: r)
  match scanInt s1 with
  | none => none
  | some (int, s2) =>
    match scanFrac s2 with
    | none => none
    | some (frac, s3) =>
      match scanExp s3 with
      | none => none
      | some (exp, s4) => some (⟨neg, int, frac, exp⟩, s4)

/-- Nesting limit of the scanner (`maxNestingDepth`). -/
def maxNestingDepth : Nat := 10000

mutual
/-- Parse one value at the head of the input; `depth` containers are open. -/
def parseValue : Nat → Nat → List Char → Option (Json × List Char)
  | 0, _, _ => none
  | _, _, [] => none
  | fuel + 1, depth, c :: r =>
    if c = '{' then
      if depth ≥ maxNestingDepth then none
      else
        match skipSpace r with
        | [] => none
        | d :: r1 =>
          if d = '}' then some (.obj [], r1)
          else
            match parseMembers fuel (depth + 1) (d :: r1) with
            | some (ms, r2) => some (.obj ms, r2)
            | none => none
    else if c = '[' then
      if depth ≥ maxNestingDepth then none
      else
        match skipSpace r with
        | [] => none
        | d :: r1 =>
          if d = ']' then some (.arr [], r1)
          else
            match parseElements fuel (depth + 1) (d :: r1) with
            | some (es, r2) => some (.arr es, r2)
            | none => none
    else if c = '"' then
      match scanString r with
      | some (us, r1) => some (.str (String.mk (decodeUnits us)), r1)
      | none => none
    else if c = '-' ∨ isDigit c then
      match scanNumber (c :: r) with
      | some (lit, r1) => some (.num lit, r1)
      | none => none
    else
      match c :: r with
      | 't' :: 'r' :: 'u' :: 'e' :: r1 => some (.bool true, r1)
      | 'f' :: 'a' :: 'l' :: 's' :: 'e' :: r1 => some (.bool false, r1)
      | 'n' :: 'u' :: 'l' :: 'l' :: r1 => some (.null, r1)
      | _ => none
/-- Parse `"key" : value` pairs separated by commas, up to and including the closing brace;
the input starts at the first key. -/
def parseMembers : Nat → Nat → List Char → Option (List (String × Json) × List Char)
  | 0, _, _ => none
  | _, _, [] => none
  | fuel + 1, depth, c :: r =>
    if c = '"' then
      match scanString r with
      | none => none
      | some (us, r1) =>
        match skipSpace r1 with
        | [] => none
        | d :: r2 =>
          if d = ':' then
            match parseValue fuel depth (skipSpace r2) with
            | none => none
            | some (v, r3) =>
              match skipSpace r3 with
              | [] => none
              | e :: r4 =>
                if e = '}' then some ([(String.mk (decodeUnits us), v)], r4)
                else if e = ',' then
                  match parseMembers fuel depth (skipSpace r4) with
                  | some (ms, r5) => some ((String.mk (decodeUnits us), v) :: ms, r5)
                  | none => none
                else none
          else none
    else none
/-- Parse values separated by commas, up to and including the closing bracket. -/
def parseElements : Nat → Nat → List Char → Option (List Json × List Char)
  | 0, _, _ => none
  | fuel + 1, depth, s =>
    match parseValue fuel depth s with
    | none => none
    | some (v, r1) =>
      match skipSpace r1 with
      | [] => none
      | e :: r2 =>
        if e = ']' then some ([v], r2)
        else if e = ',' then
          match parseElements fuel depth (skipSpace r2) with
          | some (vs, r3) => some (v :: vs, r3)
          | none => none
        else none
end

/-- Parse a complete JSON text: one value, surrounded by optional whitespace. -/
def parseJSON (data : List Char) : Option Json :=
  match parseValue (data.length + 1) 0 (skipSpace data) with
  | some (v, r) => if skipSpace r = [] then some v else none
  | none => none


/-! ## encoding/json: values and conversions -/

/-- A dynamic value held in an `interface{}` variable of this package: what
`json.Unmarshal` stores into an interface (nil, bool, float64, string,
`[]interface{}`, `map[string]interface{}`), or the zero value `T{}` of a
response struct, which is what the callers of `decodeJSON` pass in.  The entries
of a map are kept by increasing key, one per key. -/
inductive GoValue where
  | nil
  | bool (b : Bool)
  | float64 (f : Float64)
  | string (s : String)
  | slice (elems : List GoValue)
  | map (entries : List (String × GoValue))
  | struct (T : Shape)

/-- Whether the dynamic type is one of the response structs. -/
def GoValue.isStruct : GoValue → Bool
  | .struct _ => true
  | _ => false

/-- Whether the dynamic type is the response struct `T`. -/
def GoValue.hasType (T : Shape) : GoValue → Bool
  | .struct T' => decide (T' = T)
  | _ => false

/-- The assignment `m[key] = value` on a map. -/
def mapSet : List (String × GoValue) → String → GoValue → List (String × GoValue)
  | [], k, v => [(k, v)]
  | (k', v') :: rest, k, v =>
    if k = k' then (k, v) :: rest
    else if k < k' then (k, v) :: (k', v') :: rest
    else (k', v') :: mapSet rest k v

/-- The float64 a number literal converts to (`convertNumber`); `none` when it is
out of range. -/
def NumLit.toFloat64 (lit : NumLit) : Option Float64 :=
  let e : Int :=
    match lit.exp with
    | none => 0
    | some (neg, ds) => if neg then - (digitsToNat ds : Int) else (digitsToNat ds : Int)
  parseFloat lit.neg (digitsToNat (lit.int ++ lit.frac)) (e - lit.frac.length)

mutual
/-- The value stored for a JSON text decoded into an empty interface
(`valueInterface`); `none` when some number is out of the float64 range. -/
def Json.toGo : Json → Option GoValue
  | .null => some .nil
  | .bool b => some (.bool b)
  | .num lit =>
    match lit.toFloat64 with
    | some f => some (.float64 f)
    | none => none
  | .str s => some (.string s)
  | .arr elems =>
    match Json.toGoList elems with
    | some vs => some (.slice vs)
    | none => none
  | .obj members =>
    match Json.toGoMap members [] with
    | some m => some (.map m)
    | none => none
/-- Elements of an array, in order (`arrayInterface`). -/
def Json.toGoList : List Json → Option (List GoValue)
  | [] => some []
  | j :: js =>
    match Json.toGo j, Json.toGoList js with
    | some v, some vs => some (v :: vs)
    | _, _ => none
/-- Members of an object, assigned to the map in order, so that the last value of a
repeated key stays (`objectInterface`). -/
def Json.toGoMap : List (String × Json) → List (String × GoValue) → Option (List (String × GoValue))
  | [], acc => some acc
  | (k, j) :: ms, acc =>
    match Json.toGo j with
    | some v => Json.toGoMap ms (mapSet acc k v)
    | none => none
end

/-- Errors of `json.Unmarshal` (`*SyntaxError`, `*UnmarshalTypeError`). -/
inductive UnmarshalError where
  | malformed
  | outOfRange
deriving DecidableEq

/-- Text of an error (the wording of the Go messages is not modelled). -/
def UnmarshalError.text : UnmarshalError → String
  | .malformed => "json: invalid JSON text"
  | .outOfRange => "json: cannot unmarshal number into Go value of type float64"

/-- The call `json.Unmarshal(contents, &responseType)` where `responseType` is a
variable of type `interface{}`: the result is the new content of that variable.

The input is first checked to be valid JSON (`checkValid`).  The target is a
pointer to an interface; encoding/json decodes *into* the value an interface
holds only when that value is a non-nil pointer (`indirect`).  The values this
package puts there are struct values, never pointers, so the old content
(`_target`) cannot be filled and is replaced: "to unmarshal JSON into an interface
value, Unmarshal stores one of these in the interface value: bool, float64,
string, []interface{}, map[string]interface{}, nil". -/
def json.Unmarshal (contents : Bytes) (_target : GoValue) : Except UnmarshalError GoValue :=
  match parseJSON contents.toList with
  | none => .error .malformed
  | some j =>
    match j.toGo with
    | none => .error .outOfRange
    | some v => .ok v

/-- Hexadecimal digit, lower case. -/
def hexDigit (n : Nat) : Char := "0123456789abcdef".toList.getD n '0'

/-- How `json.Marshal` writes an ASCII byte of a string (HTML escaping on). -/
def escapeChar (c : Char) : List Char :=
  if c = '\\' ∨ c = '"' then ['\\', c]
  else if c = Char.ofNat 8 then ['\\', 'b']
  else if c = Char.ofNat 12 then ['\\', 'f']
  else if c = '\n' then ['\\', 'n']
  else if c = '\r' then ['\\', 'r']
  else if c = '\t' then ['\\', 't']
  else if c.toNat < 0x20 ∨ c = '<' ∨ c = '>' ∨ c = '&' then
    ['\\', 'u', '0', '0', hexDigit (c.toNat / 16), hexDigit (c.toNat % 16)]
  else [c]

/-- How `json.Marshal` writes one piece of a string: an ASCII byte by `escapeChar`;
U+2028 and U+2029 (bytes E2 80 A8 and E2 80 A9) as the escapes `\u2028` and
`\u2029`; any other character as its bytes; a bad byte as the escape `\ufffd`. -/
def escapeSegment : Segment → List Char
  | .bad _ => "\\ufffd".toList
  | .rune bytes =>
    match bytes with
    | [c] => escapeChar c
    | _ =>
      if bytes = [Char.ofNat 0xE2, Char.ofNat 0x80, Char.ofNat 0xA8] then "\\u2028".toList
      else if bytes = [Char.ofNat 0xE2, Char.ofNat 0x80, Char.ofNat 0xA9] then "\\u2029".toList
      else bytes

/-- A string as `json.Marshal` writes it. -/
def quoteString (s : String) : List Char :=
  '"' :: ((utf8Segments s.toList).flatMap escapeSegment) ++ ['"']

mutual
/-- The text `json.Marshal` writes for a value; map entries go by increasing key.  The
text of a response struct comes from its declaration (`Env.zeroJSON`). -/
def marshalValue (env : Env) : GoValue → List Char
  | .nil => "null".toList
  | .bool b => if b then "true".toList else "false".toList
  | .float64 f => formatFloat f
  | .string s => quoteString s
  | .slice elems => '[' :: marshalElems env elems ++ [']']
  | .map entries => '{' :: marshalEntries env entries ++ ['}']
  | .struct T => (env.zeroJSON T).toList
/-- Elements separated by commas. -/
def marshalElems (env : Env) : List GoValue → List Char
  | [] => []
  | v :: vs =>
    match vs with
    | [] => marshalValue env v
    | _ :: _ => marshalValue env v ++ ',' :: marshalElems env vs
/-- Entries `"key":value` separated by commas. -/
def marshalEntries (env : Env) : List (String × GoValue) → List Char
  | [] => []
  | (k, v) :: rest =>
    match rest with
    | [] => quoteString k ++ ':' :: marshalValue env v
    | _ :: _ => quoteString k ++ ':' :: marshalValue env v ++ ',' :: marshalEntries env rest
end

/-- The function `json.Marshal`.  Every value of `GoValue` is supported (floats are
finite, there are no cycles), so no error arises. -/
def json.Marshal (env : Env) (v : GoValue) : Except String Bytes :=
  .ok (String.mk (marshalValue env v))

/-! ## apis.go -/

/-- The constant `KAKAO_REST_API_URL`. -/
def KAKAO_REST_API_URL : String := "https://dapi.kakao.com/v2/search"

/-- Source: `getResult`.  The error of `http.NewRequest` is never inspected
(line 32 overwrites it), so on failure `req` is nil and line 29 dereferences
it. -/
def getResult (env : Env) (appkey : String) (url : String) : Proc Bytes := do
  let (req, _err) := http.NewRequest env "GET" url
  match req with
  | none => nilDereference
  | some req =>
    let req := { req with header := Header.add req.header "Authorization" appkey }
    logger.Printf "apis.go:30" "Header: %v" [.header req.header]
    let resp ← client.Do env req
    match resp with
    | .failed err => logger.Fatal "apis.go:34" err
    | .response body =>
      match body with
      | .broken _ err => logger.Fatal "apis.go:40" err
      | .complete data =>
        logger.Printf "apis.go:42" "resp.Body: %s" [.str data]
        return data

/-- Source: `composeURL`. -/
def composeURL (service : String) (keyword : String) : Proc String := do
  let url := Sprintf "%s/%s?query=%s" [.str KAKAO_REST_API_URL, .str service, .str keyword]
  logger.Printf "apis.go:71" "Composed URL: %s" [.str url]
  return url


/-- Source: `decodeJSON`.  `json.Unmarshal` is given `&responseType`, the address
of the parameter, whose new content is returned. -/
def decodeJSON (responseType : GoValue) (contents : Bytes) : Proc GoValue := do
  match json.Unmarshal contents responseType with
  | .error err => logger.Fatal "apis.go:53" err.text
  | .ok responseType => return responseType

/-- Source: `encodeJSON`. -/
def encodeJSON (env : Env) (responseType : GoValue) : Proc Bytes := do
  match json.Marshal env responseType with
  | .error err => logger.Fatal "apis.go:63" err
  | .ok b => return b

/-- Source: `Web`. -/
def Web (env : Env) (appkey : String) (keyword : String) : Proc String := do
  let service := "web"
  logger.Printf "apis.go:77" "Running %v function." [.str service]
  let url ← composeURL service keyword
  let rawResp ← getResult env appkey url
  let decodedResp ← decodeJSON (.struct .WebResponse) rawResp
  let encodedResp ← encodeJSON env decodedResp
  return Sprintf "%s" [.str encodedResp]

/-- Source: `Vclip`. -/
def Vclip (env : Env) (appkey : String) (keyword : String) : Proc String := do
  let service := "vclip"
  logger.Printf "apis.go:87" "Running %v function." [.str service]
  let url ← composeURL service keyword
  let rawResp ← getResult env appkey url
  let decodedResp ← decodeJSON (.struct .VclipResponse) rawResp
  let encodedResp ← encodeJSON env decodedResp
  return Sprintf "%s" [.str encodedResp]

/-- Source: `Image`. -/
def Image (env : Env) (appkey : String) (keyword : String) : Proc String := do
  let service := "image"
  logger.Printf "apis.go:97" "Running %v function." [.str service]
  let url ← composeURL service keyword
  let rawResp ← getResult env appkey url
  let decodedResp ← decodeJSON (.struct .ImageResponse) rawResp
  let encodedResp ← encodeJSON env decodedResp
  return Sprintf "%s" [.str encodedResp]

/-- Source: `Blog`. -/
def Blog (env : Env) (appkey : String) (keyword : String) : Proc String := do
  let service := "blog"
  logger.Printf "apis.go:107" "Running %v function." [.str service]
  let url ← composeURL service keyword
  let rawResp ← getResult env appkey url
  let decodedResp ← decodeJSON (.struct .BlogResponse) rawResp
  let encodedResp ← encodeJSON env decodedResp
  return Sprintf "%s" [.str encodedResp]

/-- Source: `Tip`. -/
def Tip (env : Env) (appkey : String) (keyword : String) : Proc String := do
  let service := "tip"
  logger.Printf "apis.go:117" "Running %v function." [.str service]
  let url ← composeURL service keyword
  let rawResp ← getResult env appkey url
  let decodedResp ← decodeJSON (.struct .TipResponse) rawResp
  let encodedResp ← encodeJSON env decodedResp
  return Sprintf "%s" [.str encodedResp]

/-- Source: `Book`. -/
def Book (env : Env) (appkey : String) (keyword : String) : Proc String := do
  let service := "book"
  logger.Printf "apis.go:127" "Running %v function." [.str service]
  let url ← composeURL service keyword
  let rawResp ← getResult env appkey url
  let decodedResp ← decodeJSON (.struct .BookResponse) rawResp
  let encodedResp ← encodeJSON env decodedResp
  return Sprintf "%s" [.str encodedResp]

/-- Source: `Cafe`. -/
def Cafe (env : Env) (appkey : String) (keyword : String) : Proc String := do
  let service := "cafe"
  logger.Printf "apis.go:137" "Running %v function." [.str service]
  let url ← composeURL service keyword
  let rawResp ← getResult env appkey url
  let decodedResp ← decodeJSON (.struct .CafeResponse) rawResp
  let encodedResp ← encodeJSON env decodedResp
  return Sprintf "%s" [.str encodedResp]

/-- The type `serviceFn`. -/
abbrev serviceFn : Type := String → String → Proc String

/-- Source: `PrintLog`. -/
def PrintLog (fn : serviceFn) (appkey : String) (keyword : String) : Proc String := do
  logger.Println "apis.go:147" "Running PrintLog function"
  let result ← fn appkey keyword
  fmt.PrintBuf
  return result

/-! ## The seven operations as a family -/

/-- The public operation whose response shape is `T`. -/
def operation : Shape → Env → serviceFn
  | .WebResponse => Web
  | .VclipResponse => Vclip
  | .ImageResponse => Image
  | .BlogResponse => Blog
  | .TipResponse => Tip
  | .BookResponse => Book
  | .CafeResponse => Cafe

/-- The service identifier that the operation of shape `T` puts in the URL. -/
def serviceName : Shape → String
  | .WebResponse => "web"
  | .VclipResponse => "vclip"
  | .ImageResponse => "image"
  | .BlogResponse => "blog"
  | .TipResponse => "tip"
  | .BookResponse => "book"
  | .CafeResponse => "cafe"

/-- The call site of the first trace line of the operation of shape `T`. -/
def serviceSite : Shape → String
  | .WebResponse => "apis.go:77"
  | .VclipResponse => "apis.go:87"
  | .ImageResponse => "apis.go:97"
  | .BlogResponse => "apis.go:107"
  | .TipResponse => "apis.go:117"
  | .BookResponse => "apis.go:127"
  | .CafeResponse => "apis.go:137"

/-- The body the seven operations share, with the service identifier, the shape
and the call site as parameters. -/
def runService (T : Shape) (env : Env) (appkey : String) (keyword : String) : Proc String := do
  let service := serviceName T
  logger.Printf (serviceSite T) "Running %v function." [.str service]
  let url ← composeURL service keyword
  let rawResp ← getResult env appkey url
  let decodedResp ← decodeJSON (.struct T) rawResp
  let encodedResp ← encodeJSON env decodedResp
  return Sprintf "%s" [.str encodedResp]

/-- The URL that the operation of shape `T` requests for `keyword`. -/
def serviceURL (T : Shape) (keyword : String) : String :=
  "https://dapi.kakao.com/v2/search/" ++ serviceName T ++ "?query=" ++ keyword

/-- The request that the operation of shape `T` hands to `client.Do`. -/
def serviceRequest (T : Shape) (appkey : String) (keyword : String) : Request :=
  { method := "GET", url := serviceURL T keyword, header := [("Authorization", [appkey])] }

/-- Decode then encode, as every operation does with the response body. -/
def recode (T : Shape) (env : Env) (body : Bytes) : Proc String := do
  let decodedResp ← decodeJSON (.struct T) body
  encodeJSON env decodedResp

/-- The URL that the operation of shape `T` asks the remote service for: the URL it
composes, without the fragment (what follows the first `#` of the keyword). -/
def serviceTarget (T : Shape) (keyword : String) : String :=
  String.mk (beforeFragment (serviceURL T keyword).toList)

/-- The request that the operation of shape `T` makes to the remote service. -/
def serviceWire (T : Shape) (appkey : String) (keyword : String) : WireRequest :=
  { method := "GET", target := serviceTarget T keyword,
    header := [("Authorization", [appkey])] }

/-! ## Concrete surroundings for examples -/

/-- A process that has not logged, printed, sent or requested anything yet. -/
def freshState : State := { buf := "", stdout := "", sent := [], wire := [] }

/-- An environment in which every URL without control characters parses and the
remote service answers every request with `body`.  The struct texts are never
used by a run of an operation. -/
def answering (body : Bytes) : Env :=
  { urlParses := fun _ => true
    remote := fun _ _ => .response (.complete body)
    zeroJSON := fun _ => "null" }

/-- An environment whose remote service has moved: every request for another URL
than `location` is answered with a redirect to `location` on the same host, which
the client follows with a GET carrying the same header fields and a `Referer`;
a request for `location` is answered with `body`. -/
def movedTo (location : String) (body : Bytes) : Env :=
  { urlParses := fun _ => true
    remote := fun _ w =>
      if w.target = location then .response (.complete body)
      else .redirect
        { method := "GET", target := location,
          header := w.header ++ [("Referer", [w.target])] }
    zeroJSON := fun _ => "null" }

/-- The state of a fresh process after one call
`PrintLog(Web, "KakaoAK abc123", "cats")` answered with an empty object. -/
def afterOneCall : State :=
  (PrintLog (Web (answering "\x7b\x7d")) "KakaoAK abc123" "cats" freshState).state

/-! ## The JSON grammar of RFC 8259, as a specification

Each relation `X s r` reads: the bytes `s` start with an `X`, and `r` is what follows
it.  The grammar is read on bytes: every delimiter of JSON is an ASCII byte, and inside
a string literal any byte from 0x20 on other than the quote and the backslash is taken
as it is.  `JsonText` is this grammar alone; `WellFormedJSON` adds what RFC 8259
requires of the encoding, that the bytes are valid UTF-8.  The grammar is independent
of the scanner above. -/

/-- Insignificant whitespace: space, horizontal tab, line feed, carriage return. -/
def IsWs (c : Char) : Prop := c = ' ' ∨ c = '\t' ∨ c = '\n' ∨ c = '\r'

/-- A decimal digit. -/
def IsDigitChar (c : Char) : Prop := '0'.toNat ≤ c.toNat ∧ c.toNat ≤ '9'.toNat

/-- A hexadecimal digit, in either case. -/
def IsHexChar (c : Char) : Prop :=
  IsDigitChar c ∨ ('a'.toNat ≤ c.toNat ∧ c.toNat ≤ 'f'.toNat)
    ∨ ('A'.toNat ≤ c.toNat ∧ c.toNat ≤ 'F'.toNat)

/-- The letters allowed after a backslash other than `u`. -/
def IsEscapeLetter (c : Char) : Prop :=
  c = '"' ∨ c = '\\' ∨ c = '/' ∨ c = 'b' ∨ c = 'f' ∨ c = 'n' ∨ c = 'r' ∨ c = 't'

/-- Rule `ws`: any number of whitespace characters. -/
inductive Ws : List Char → List Char → Prop where
  | done (r : List Char) : Ws r r
  | skip (c : Char) (s r : List Char) : IsWs c → Ws s r → Ws (c :: s) r

/-- Rule `1*DIGIT`: one or more digits. -/
inductive Digits : List Char → List Char → Prop where
  | one (c : Char) (r : List Char) : IsDigitChar c → Digits (c :: r) r
  | more (c : Char) (s r : List Char) : IsDigitChar c → Digits s r → Digits (c :: s) r

/-- Rule `int`: a zero, or a non-zero digit followed by any digits. -/
inductive IntPart : List Char → List Char → Prop where
  | zero (r : List Char) : IntPart ('0' :: r) r
  | single (c : Char) (r : List Char) : IsDigitChar c → c ≠ '0' → IntPart (c :: r) r
  | several (c : Char) (s r : List Char) :
      IsDigitChar c → c ≠ '0' → Digits s r → IntPart (c :: s) r

/-- Rule `[ frac ]`: nothing, or a point and digits. -/
inductive FracPart : List Char → List Char → Prop where
  | absent (r : List Char) : FracPart r r
  | present (s r : List Char) : Digits s r → FracPart ('.' :: s) r

/-- Rule `[ exp ]`: nothing, or `e`/`E`, an optional sign and digits. -/
inductive ExpPart : List Char → List Char → Prop where
  | absent (r : List Char) : ExpPart r r
  | unsigned (e : Char) (s r : List Char) : e = 'e' ∨ e = 'E' → Digits s r → ExpPart (e :: s) r
  | signed (e sg : Char) (s r : List Char) :
      e = 'e' ∨ e = 'E' → sg = '+' ∨ sg = '-' → Digits s r → ExpPart (e :: sg :: s) r

/-- Rule `number`: an optional minus, `int`, `[ frac ]`, `[ exp ]`. -/
inductive Number : List Char → List Char → Prop where
  | plain (s s1 s2 r : List Char) : IntPart s s1 → FracPart s1 s2 → ExpPart s2 r → Number s r
  | minus (s s1 s2 r : List Char) :
      IntPart s s1 → FracPart s1 s2 → ExpPart s2 r → Number ('-' :: s) r

/-- The bytes of a string after its opening quote, up to and including the closing
quote: unescaped bytes from 0x20 on other than quote and backslash, and escapes. -/
inductive StrBody : List Char → List Char → Prop where
  | close (r : List Char) : StrBody ('"' :: r) r
  | unescaped (c : Char) (s r : List Char) :
      0x20 ≤ c.toNat → c ≠ '"' → c ≠ '\\' → StrBody s r → StrBody (c :: s) r
  | escape (e : Char) (s r : List Char) :
      IsEscapeLetter e → StrBody s r → StrBody ('\\' :: e :: s) r
  | unicode (h1 h2 h3 h4 : Char) (s r : List Char) :
      IsHexChar h1 → IsHexChar h2 → IsHexChar h3 → IsHexChar h4 → StrBody s r →
      StrBody ('\\' :: 'u' :: h1 :: h2 :: h3 :: h4 :: s) r

mutual
/-- Rule `value`. -/
inductive JValue : List Char → List Char → Prop where
  | null (r : List Char) : JValue ('n' :: 'u' :: 'l' :: 'l' :: r) r
  | true (r : List Char) : JValue ('t' :: 'r' :: 'u' :: 'e' :: r) r
  | false (r : List Char) : JValue ('f' :: 'a' :: 'l' :: 's' :: 'e' :: r) r
  | number (s r : List Char) : Number s r → JValue s r
  | string (s r : List Char) : StrBody s r → JValue ('"' :: s) r
  | emptyArray (s r : List Char) : Ws s (']' :: r) → JValue ('[' :: s) r
  | array (s r : List Char) : JElements s r → JValue ('[' :: s) r
  | emptyObject (s r : List Char) : Ws s ('}' :: r) → JValue ('{' :: s) r
  | object (s r : List Char) : JMembers s r → JValue ('{' :: s) r
/-- The inside of a non-empty array, up to and including the closing bracket:
values with whitespace around them, separated by commas. -/
inductive JElements : List Char → List Char → Prop where
  | last (s s1 s2 r : List Char) : Ws s s1 → JValue s1 s2 → Ws s2 (']' :: r) → JElements s r
  | more (s s1 s2 s3 r : List Char) :
      Ws s s1 → JValue s1 s2 → Ws s2 (',' :: s3) → JElements s3 r → JElements s r
/-- The inside of a non-empty object, up to and including the closing brace: members
`string : value` with whitespace around each part, separated by commas. -/
inductive JMembers : List Char → List Char → Prop where
  | last (s s1 s2 s3 s4 s5 r : List Char) :
      Ws s ('"' :: s1) → StrBody s1 s2 → Ws s2 (':' :: s3) → Ws s3 s4 → JValue s4 s5 →
      Ws s5 ('}' :: r) → JMembers s r
  | more (s s1 s2 s3 s4 s5 s6 r : List Char) :
      Ws s ('"' :: s1) → StrBody s1 s2 → Ws s2 (':' :: s3) → Ws s3 s4 → JValue s4 s5 →
      Ws s5 (',' :: s6) → JMembers s6 r → JMembers s r
end

/-- Rule `JSON-text`: the whole text is one value with whitespace around it. -/
def JsonText (b : List Char) : Prop :=
  ∃ s1 s2, Ws b s1 ∧ JValue s1 s2 ∧ Ws s2 []

/-- Well-formed JSON in the sense of RFC 8259: valid UTF-8 that matches the
grammar. -/
def WellFormedJSON (b : List Char) : Prop :=
  validUTF8 b = true ∧ JsonText b

/-! # Theorems -/

/-! ## Running the state transformers -/

theorem Proc.run_bind {α β : Type} (m : Proc α) (f : α → Proc β) (st : State) :
    (m >>= f) st =
      match m st with
      | .ret a st' => f a st'
      | .fatal st' => .fatal st'
      | .panic msg st' => .panic msg st' := rfl

theorem Proc.run_pure {α : Type} (a : α) (st : State) : (pure a : Proc α) st = .ret a st := rfl

theorem Sprintf_s (s : String) : Sprintf "%s" [.str s] = s := by
  simp [Sprintf, sprintfAux, Operand.render]

theorem Sprintf_composeURL (S K : String) :
    Sprintf "%s/%s?query=%s" [.str KAKAO_REST_API_URL, .str S, .str K]
      = "https://dapi.kakao.com/v2/search" ++ "/" ++ S ++ "?query=" ++ K := by
  simp only [Sprintf, sprintfAux, Operand.render, KAKAO_REST_API_URL]
  apply String.ext
  simp [String.data_append]

/-- C1: `composeURL(S, K)` returns exactly the base URL, a slash, the service, the text
`?query=` and the keyword, both verbatim, for all strings `S` and `K`; it sends nothing and
prints nothing. -/
theorem composeURL_returns_concatenation (S K : String) (st : State) :
    ∃ st', composeURL S K st
        = Result.ret ("https://dapi.kakao.com/v2/search" ++ "/" ++ S ++ "?query=" ++ K) st'
      ∧ st'.sent = st.sent ∧ st'.stdout = st.stdout := by
  refine ⟨{ st with buf := st.buf ++ logLine "apis.go:71" (Sprintf "Composed URL: %s"
    [.str ("https://dapi.kakao.com/v2/search" ++ "/" ++ S ++ "?query=" ++ K)]) }, ?_, rfl, rfl⟩
  show (logger.Printf _ _ _ >>= fun _ => pure _) st = _
  rw [Proc.run_bind]
  simp only [logger.Printf, Proc.run_pure, Sprintf_composeURL]

/-! ## `getResult` -/

theorem NewRequest_fst (env : Env) (url : String) :
    (http.NewRequest env "GET" url).1 =
      if stringContainsCTLByte (beforeFragment url.toList) = true then none
      else if env.urlParses url = true then some { method := "GET", url := url, header := [] }
      else none := by
  unfold http.NewRequest
  split
  · rfl
  · split <;> rfl

/-- State after the request has been built, logged and handed to the client. -/
theorem getResult_eq (env : Env) (A url : String) (st : State) :
    getResult env A url st =
      match (http.NewRequest env "GET" url).1 with
      | none => .panic "runtime error: invalid memory address or nil pointer dereference" st
      | some req0 =>
        match (client.exchange env st.wire
            { req0 with header := Header.add req0.header "Authorization" A }).2 with
        | .failed err => .fatal
            { buf := st.buf ++ logLine "apis.go:30" (Sprintf "Header: %v"
                  [.header (Header.add req0.header "Authorization" A)])
                ++ logLine "apis.go:34" err,
              stdout := st.stdout,
              sent := st.sent ++ [{ req0 with header := Header.add req0.header "Authorization" A }],
              wire := (client.exchange env st.wire
                { req0 with header := Header.add req0.header "Authorization" A }).1 }
        | .response (.broken _ err) => .fatal
            { buf := st.buf ++ logLine "apis.go:30" (Sprintf "Header: %v"
                  [.header (Header.add req0.header "Authorization" A)])
                ++ logLine "apis.go:40" err,
              stdout := st.stdout,
              sent := st.sent ++ [{ req0 with header := Header.add req0.header "Authorization" A }],
              wire := (client.exchange env st.wire
                { req0 with header := Header.add req0.header "Authorization" A }).1 }
        | .response (.complete data) => .ret data
            { buf := st.buf ++ logLine "apis.go:30" (Sprintf "Header: %v"
                  [.header (Header.add req0.header "Authorization" A)])
                ++ logLine "apis.go:42" (Sprintf "resp.Body: %s" [.str data]),
              stdout := st.stdout,
              sent := st.sent ++ [{ req0 with header := Header.add req0.header "Authorization" A }],
              wire := (client.exchange env st.wire
                { req0 with header := Header.add req0.header "Authorization" A }).1 } := by
  unfold getResult
  cases h : (http.NewRequest env "GET" url) with
  | mk req err =>
    cases req with
    | none => rfl
    | some req0 =>
      simp only []
      show (logger.Printf _ _ _ >>= fun _ => client.Do env _ >>= fun resp => _) st = _
      simp only [Proc.run_bind, logger.Printf, client.Do]
      cases h2 : (client.exchange env st.wire
          { req0 with header := Header.add req0.header "Authorization" A }).2 with
      | failed err => rfl
      | response body =>
        cases body with
        | complete data => rfl
        | broken a err => rfl

/-- C7: when the request can be built, `getResult` hands exactly one request to the
client, for the given URL, and its only header is `Authorization` with the single value
`A`, the credential as given, whatever `A` is. -/
theorem getResult_sends_raw_credential (env : Env) (A url : String) (st : State)
    (h : ((http.NewRequest env "GET" url).1).isSome = true) :
    ∃ req, (getResult env A url st).state.sent = st.sent ++ [req]
      ∧ req.method = "GET" ∧ req.url = url
      ∧ req.header = [("Authorization", [A])]
      ∧ Header.values req.header "Authorization" = [A] := by
  refine ⟨{ method := "GET", url := url, header := [("Authorization", [A])] }, ?_, rfl, rfl, rfl, ?_⟩
  · rw [NewRequest_fst] at h
    by_cases h1 : stringContainsCTLByte (beforeFragment url.toList) = true
    · rw [if_pos h1] at h
      simp at h
    · by_cases h2 : env.urlParses url = true
      · rw [getResult_eq, NewRequest_fst, if_neg h1, if_pos h2]
        simp only []
        generalize (client.exchange env st.wire _).2 = r
        cases r with
        | failed err => rfl
        | response body => cases body <;> rfl
      · rw [if_neg h1, if_neg h2] at h
        simp at h
  · show Header.values [("Authorization", [A])] "Authorization" = [A]
    simp [Header.values]

/-- Witness for C7: the credential `KakaoAK abc123` and a search URL. -/
theorem getResult_sends_raw_credential_witness :
    ∃ req, (getResult (answering "null") "KakaoAK abc123"
          "https://dapi.kakao.com/v2/search/web?query=cats" freshState).state.sent
        = freshState.sent ++ [req]
      ∧ req.method = "GET" ∧ req.url = "https://dapi.kakao.com/v2/search/web?query=cats"
      ∧ req.header = [("Authorization", ["KakaoAK abc123"])]
      ∧ Header.values req.header "Authorization" = ["KakaoAK abc123"] :=
  getResult_sends_raw_credential (answering "null") "KakaoAK abc123"
    "https://dapi.kakao.com/v2/search/web?query=cats" freshState (by decide)

/-- C8 (code at the failing input): for a URL whose keyword holds a line feed the
request cannot be built; `getResult` then panics on the nil request and does not take
the `logger.Fatal` path, in every environment and state. -/
theorem getResult_unbuildable_url_panics (env : Env) (A : String) (st : State) :
    getResult env A "https://dapi.kakao.com/v2/search/web?query=a\nb" st
        = Result.panic "runtime error: invalid memory address or nil pointer dereference" st
      ∧ (getResult env A "https://dapi.kakao.com/v2/search/web?query=a\nb" st).isFatal = false := by
  have h : (http.NewRequest env "GET" "https://dapi.kakao.com/v2/search/web?query=a\nb").1 = none := by
    rw [NewRequest_fst]
    rw [if_pos (by decide)]
  rw [getResult_eq, h]
  exact ⟨rfl, rfl⟩

/-! ## The codec steps -/

theorem decodeJSON_eq (R : GoValue) (b : String) (st : State) :
    decodeJSON R b st =
      match json.Unmarshal b R with
      | .error err => .fatal { st with buf := st.buf ++ logLine "apis.go:53" err.text }
      | .ok v => .ret v st := by
  unfold decodeJSON
  cases json.Unmarshal b R <;> rfl

theorem encodeJSON_eq (env : Env) (v : GoValue) (st : State) :
    encodeJSON env v st = .ret (String.mk (marshalValue env v)) st := rfl

theorem recode_eq (T : Shape) (env : Env) (b : String) (st : State) :
    recode T env b st =
      match json.Unmarshal b (.struct T) with
      | .error err => .fatal { st with buf := st.buf ++ logLine "apis.go:53" err.text }
      | .ok v => .ret (String.mk (marshalValue env v)) st := by
  show (decodeJSON (.struct T) b >>= fun v => encodeJSON env v) st = _
  rw [Proc.run_bind, decodeJSON_eq]
  cases json.Unmarshal b (.struct T) <;> rfl

theorem recode_sent (T : Shape) (env : Env) (b : String) (st : State) :
    (recode T env b st).state.sent = st.sent := by
  rw [recode_eq]
  cases json.Unmarshal b (.struct T) <;> rfl

theorem recode_wire (T : Shape) (env : Env) (b : String) (st : State) :
    (recode T env b st).state.wire = st.wire := by
  rw [recode_eq]
  cases json.Unmarshal b (.struct T) <;> rfl

/-! ## The seven operations -/

theorem operation_eq_runService (T : Shape) : operation T = runService T := by
  cases T <;> rfl

theorem composeURL_eq (S K : String) (st : State) :
    composeURL S K st = .ret ("https://dapi.kakao.com/v2/search/" ++ S ++ "?query=" ++ K)
      { st with buf := st.buf ++ logLine "apis.go:71" (Sprintf "Composed URL: %s"
          [.str ("https://dapi.kakao.com/v2/search/" ++ S ++ "?query=" ++ K)]) } := by
  have e : Sprintf "%s/%s?query=%s" [.str KAKAO_REST_API_URL, .str S, .str K]
      = "https://dapi.kakao.com/v2/search/" ++ S ++ "?query=" ++ K := by
    rw [Sprintf_composeURL]
    apply String.ext
    simp [String.data_append]
  show (logger.Printf _ _ _ >>= fun _ => pure _) st = _
  rw [Proc.run_bind]
  simp only [logger.Printf, Proc.run_pure, e]

/-- State in which an operation calls `getResult`: two trace lines have been logged. -/
theorem runService_eq (T : Shape) (env : Env) (A K : String) (st : State) :
    runService T env A K st =
      match getResult env A (serviceURL T K)
          { st with buf := st.buf
              ++ logLine (serviceSite T) (Sprintf "Running %v function." [.str (serviceName T)])
              ++ logLine "apis.go:71" (Sprintf "Composed URL: %s" [.str (serviceURL T K)]) } with
      | .ret body st3 => recode T env body st3
      | .fatal s => .fatal s
      | .panic m s => .panic m s := by
  show (logger.Printf _ _ _ >>= fun _ => composeURL _ K >>= fun url =>
      getResult env A url >>= fun rawResp => decodeJSON (.struct T) rawResp >>= fun d =>
      encodeJSON env d >>= fun e => pure (Sprintf "%s" [.str e])) st = _
  simp only [Proc.run_bind, logger.Printf, composeURL_eq, serviceURL]
  generalize getResult env A _ _ = r
  cases r with
  | ret body st3 =>
    simp only [recode_eq, decodeJSON_eq]
    cases json.Unmarshal body (.struct T) with
    | error err => rfl
    | ok v => simp only [encodeJSON_eq, Proc.run_pure, Sprintf_s]
  | fatal s => rfl
  | panic m s => rfl

theorem serviceURL_scheme (T : Shape) (K : String) :
    (urlSchemeRest (beforeFragment (serviceURL T K).toList)).1 = "https".toList := by
  cases T <;> rfl

theorem serviceURL_host (T : Shape) (K : String) :
    urlHost (beforeFragment (serviceURL T K).toList) = "dapi.kakao.com".toList := by
  cases T <;> rfl

theorem transportAccepts_service (T : Shape) (A K : String) :
    transportAccepts (serviceRequest T A K) = validHeaderFieldValue A := by
  show (((urlSchemeRest (beforeFragment (serviceURL T K).toList)).1 = "http".toList
      || (urlSchemeRest (beforeFragment (serviceURL T K).toList)).1 = "https".toList)
    && !(urlHost (beforeFragment (serviceURL T K).toList)).isEmpty
    && List.all [("Authorization", [A])] (fun kv => kv.2.all validHeaderFieldValue)) = _
  rw [serviceURL_scheme, serviceURL_host]
  simp

theorem onWire_service (T : Shape) (A K : String) :
    (serviceRequest T A K).onWire = serviceWire T A K := rfl

theorem follow_direct (env : Env) (n : Nat) (wire : List WireRequest) (w : WireRequest)
    (h : (env.remote wire w).isRedirect = false) :
    client.follow env (n + 1) wire w =
      (wire ++ [w],
        match env.remote wire w with
        | .failed err => .failed err
        | .response body => .response body
        | .redirect _ => .failed "") := by
  rw [client.follow]
  cases hr : env.remote wire w with
  | failed err => rfl
  | response body => rfl
  | redirect next => rw [hr] at h; cases h

/-- A built request has the URL it was built from and no header yet. -/
theorem NewRequest_built (env : Env) (url : String)
    (h : ((http.NewRequest env "GET" url).1).isSome = true) :
    (http.NewRequest env "GET" url).1 = some { method := "GET", url := url, header := [] } := by
  rw [NewRequest_fst] at h ⊢
  by_cases h1 : stringContainsCTLByte (beforeFragment url.toList) = true
  · rw [if_pos h1] at h
    simp at h
  · by_cases h2 : env.urlParses url = true
    · rw [if_neg h1, if_pos h2]
    · rw [if_neg h1, if_neg h2] at h
      simp at h

/-- C2 (as amended): for each of the seven operations, every credential `A` that is a
valid header field value, every keyword `K` for which the request can be built, and every
remote service that does not answer that request with a redirect: the operation hands
one request to the client, and the client makes exactly one request to the remote
service, a GET of `https://dapi.kakao.com/v2/search/<id>?query=K` without the fragment
of `K` (what follows its first `#`), whose only header is `Authorization: A`; and when that
request is answered with a complete body, the operation ends as decoding that body into
the service's shape and encoding the result ends. -/
theorem operation_issues_one_request (T : Shape) (env : Env) (A K : String) (st : State)
    (hbuilt : ((http.NewRequest env "GET" (serviceURL T K)).1).isSome = true)
    (hvalid : validHeaderFieldValue A = true)
    (hdirect : (env.remote st.wire (serviceWire T A K)).isRedirect = false) :
    (operation T env A K st).state.sent = st.sent ++ [serviceRequest T A K]
    ∧ (operation T env A K st).state.wire = st.wire ++ [serviceWire T A K]
    ∧ ∀ body, env.remote st.wire (serviceWire T A K) = .response (.complete body) →
        ∃ st1, st1.sent = st.sent ++ [serviceRequest T A K]
          ∧ st1.wire = st.wire ++ [serviceWire T A K]
          ∧ st1.stdout = st.stdout
          ∧ operation T env A K st = recode T env body st1 := by
  have hadd : Request.mk "GET" (serviceURL T K) (Header.add [] "Authorization" A)
      = serviceRequest T A K := rfl
  have hex : client.exchange env st.wire (serviceRequest T A K)
      = (st.wire ++ [serviceWire T A K],
          match env.remote st.wire (serviceWire T A K) with
          | .failed err => .failed err
          | .response body => .response body
          | .redirect _ => .failed "") := by
    unfold client.exchange
    rw [transportAccepts_service, hvalid, if_pos rfl, onWire_service]
    exact follow_direct env 9 st.wire _ hdirect
  rw [operation_eq_runService, runService_eq, getResult_eq, NewRequest_built env _ hbuilt]
  simp only [hadd, hex]
  cases ht : env.remote st.wire (serviceWire T A K) with
  | failed err => exact ⟨rfl, rfl, fun body hb => by cases hb⟩
  | redirect next => rw [ht] at hdirect; cases hdirect
  | response body =>
    cases body with
    | broken a err => exact ⟨rfl, rfl, fun body hb => by cases hb⟩
    | complete data =>
      simp only []
      refine ⟨?_, ?_, fun body hb => ?_⟩
      · rw [recode_sent]
      · rw [recode_wire]
      · cases hb
        refine ⟨_, ?_, ?_, ?_, rfl⟩
        · rfl
        · rfl
        · rfl

/-- Witness for C2 (as amended): `Web` with the keyword `cats` against a service that
answers with an empty object. -/
theorem operation_issues_one_request_witness :
    (operation .WebResponse (answering "\x7b\x7d") "KakaoAK abc123" "cats" freshState).state.sent
        = freshState.sent ++ [serviceRequest .WebResponse "KakaoAK abc123" "cats"]
    ∧ (operation .WebResponse (answering "\x7b\x7d") "KakaoAK abc123" "cats" freshState).state.wire
        = freshState.wire ++ [serviceWire .WebResponse "KakaoAK abc123" "cats"]
    ∧ ∀ body, (answering "\x7b\x7d").remote freshState.wire
          (serviceWire .WebResponse "KakaoAK abc123" "cats") = .response (.complete body) →
        ∃ st1, st1.sent = freshState.sent ++ [serviceRequest .WebResponse "KakaoAK abc123" "cats"]
          ∧ st1.wire = freshState.wire ++ [serviceWire .WebResponse "KakaoAK abc123" "cats"]
          ∧ st1.stdout = freshState.stdout
          ∧ operation .WebResponse (answering "\x7b\x7d") "KakaoAK abc123" "cats" freshState
              = recode .WebResponse (answering "\x7b\x7d") body st1 :=
  operation_issues_one_request .WebResponse (answering "\x7b\x7d") "KakaoAK abc123" "cats"
    freshState (by decide) (by decide) (by decide)

set_option maxRecDepth 100000 in
/-- C2 (counterexample), four runs of `Web` in a fresh process.
(1) With the keyword `a`, line feed, `b` the request cannot be built: nothing is handed to
the client and no request is made, although the remote service would answer any request.
(2) With the credential `KakaoAK`, line feed, `abc` the transport does not accept the
request: no request is made.
(3) Against a service that answers the first request with a redirect, the client makes
two requests, and the operation returns the recoded body of the second.
(4) With the keyword `a#b` the one request made is for `...?query=a`, not for the URL
`...?query=a#b`. -/
theorem Web_requests_counterexamples :
    ((Web (answering "\x7b\x7d") "KakaoAK abc123" "a\nb" freshState).state.sent = []
      ∧ (Web (answering "\x7b\x7d") "KakaoAK abc123" "a\nb" freshState).state.wire = [])
    ∧ ((Web (answering "\x7b\x7d") "KakaoAK\nabc" "cats" freshState).state.wire = []
      ∧ (Web (answering "\x7b\x7d") "KakaoAK\nabc" "cats" freshState).isFatal = true)
    ∧ ((Web (movedTo "https://dapi.kakao.com/v3/search/web?query=cats" "[1]")
          "KakaoAK abc123" "cats" freshState).state.wire
        = [ { method := "GET", target := "https://dapi.kakao.com/v2/search/web?query=cats",
              header := [("Authorization", ["KakaoAK abc123"])] },
            { method := "GET", target := "https://dapi.kakao.com/v3/search/web?query=cats",
              header := [("Authorization", ["KakaoAK abc123"]),
                ("Referer", ["https://dapi.kakao.com/v2/search/web?query=cats"])] } ]
      ∧ (Web (movedTo "https://dapi.kakao.com/v3/search/web?query=cats" "[1]")
          "KakaoAK abc123" "cats" freshState).value? = some "[1]")
    ∧ ((Web (answering "\x7b\x7d") "KakaoAK abc123" "a#b" freshState).state.wire
        = [ { method := "GET", target := "https://dapi.kakao.com/v2/search/web?query=a",
              header := [("Authorization", ["KakaoAK abc123"])] } ]
      ∧ "https://dapi.kakao.com/v2/search/web?query=a"
          ≠ "https://dapi.kakao.com/v2/search/web?query=" ++ "a#b") := by
  refine ⟨⟨by decide, by decide⟩, ⟨by decide, by decide⟩, ⟨by decide, by decide⟩,
    ⟨by decide, by decide⟩⟩

/-! ## `PrintLog` -/

theorem PrintLog_eq (fn : serviceFn) (A K : String) (st : State) :
    PrintLog fn A K st =
      match fn A K { st with buf := st.buf ++ logLine "apis.go:147" ("Running PrintLog function" ++ "\n") } with
      | .ret r s => .ret r { s with stdout := s.stdout ++ s.buf }
      | .fatal s => .fatal s
      | .panic m s => .panic m s := by
  show (logger.Println _ _ >>= fun _ => fn A K >>= fun r => fmt.PrintBuf >>= fun _ => pure r) st = _
  simp only [Proc.run_bind, logger.Println]
  cases fn A K _ <;> rfl

/-- The outcome of an operation does not depend on the diagnostic buffer or on what has
been printed: two runs from states with the same history of requests made to the remote
service end alike. -/
theorem runService_outcome_of_wire (T : Shape) (env : Env) (A K : String) (st st' : State)
    (h : st.wire = st'.wire) :
    (runService T env A K st).value? = (runService T env A K st').value?
    ∧ (runService T env A K st).isFatal = (runService T env A K st').isFatal
    ∧ (runService T env A K st).isPanic = (runService T env A K st').isPanic := by
  simp only [runService_eq, getResult_eq, h]
  cases (http.NewRequest env "GET" (serviceURL T K)).1 with
  | none => simp only [Result.value?, Result.isFatal, Result.isPanic, and_self]
  | some req0 =>
    simp only []
    cases (client.exchange env st'.wire
        { req0 with header := Header.add req0.header "Authorization" A }).2 with
    | failed err => simp only [Result.value?, Result.isFatal, Result.isPanic, and_self]
    | response body =>
      cases body with
      | broken a err => simp only [Result.value?, Result.isFatal, Result.isPanic, and_self]
      | complete data =>
        simp only [recode_eq]
        cases json.Unmarshal data (.struct T) <;>
          simp only [Result.value?, Result.isFatal, Result.isPanic, and_self]

/-- An operation only appends to the diagnostic buffer and prints nothing. -/
theorem runService_appends (T : Shape) (env : Env) (A K : String) (st : State) :
    (∃ lines, (runService T env A K st).state.buf = st.buf ++ lines)
    ∧ (runService T env A K st).state.stdout = st.stdout := by
  simp only [runService_eq, getResult_eq]
  cases (http.NewRequest env "GET" (serviceURL T K)).1 with
  | none =>
    simp only [Result.state, String.append_assoc, and_true]
    exact ⟨_, rfl⟩
  | some req0 =>
    simp only []
    cases (client.exchange env st.wire
        { req0 with header := Header.add req0.header "Authorization" A }).2 with
    | failed err =>
      simp only [Result.state, String.append_assoc, and_true]
      exact ⟨_, rfl⟩
    | response body =>
      cases body with
      | broken a err =>
        simp only [Result.state, String.append_assoc, and_true]
        exact ⟨_, rfl⟩
      | complete data =>
        simp only [recode_eq]
        cases json.Unmarshal data (.struct T) with
        | error err =>
          simp only [Result.state, String.append_assoc, and_true]
          exact ⟨_, rfl⟩
        | ok v =>
          simp only [Result.state, String.append_assoc, and_true]
          exact ⟨_, rfl⟩

/-- C9: for each of the seven operations, every credential, keyword, environment and
state (so every content of the diagnostic buffer), `PrintLog` applied to the operation
returns a string exactly when the operation called directly returns it, and the same string;
it ends in `logger.Fatal` exactly when the operation does, and panics exactly when it
does. -/
theorem PrintLog_passes_result_through (T : Shape) (env : Env) (A K : String) (st : State) :
    (PrintLog (operation T env) A K st).value? = (operation T env A K st).value?
    ∧ (PrintLog (operation T env) A K st).isFatal = (operation T env A K st).isFatal
    ∧ (PrintLog (operation T env) A K st).isPanic = (operation T env A K st).isPanic := by
  rw [PrintLog_eq, operation_eq_runService]
  obtain ⟨h1, h2, h3⟩ := runService_outcome_of_wire T env A K
    { st with buf := st.buf ++ logLine "apis.go:147" ("Running PrintLog function" ++ "\n") } st rfl
  rw [← h1, ← h2, ← h3]
  cases runService T env A K
    { st with buf := st.buf ++ logLine "apis.go:147" ("Running PrintLog function" ++ "\n") } <;>
    exact ⟨rfl, rfl, rfl⟩

/-- C10 (as amended): for each of the seven operations and every state left by earlier
calls, `PrintLog` only appends to the diagnostic buffer, and when it returns, the text it
has added to standard output is the entire buffer at that moment: everything logged by
earlier calls followed by the lines logged during this call. When it does not return,
nothing is printed. -/
theorem PrintLog_prints_whole_buffer (T : Shape) (env : Env) (A K : String) (st : State) :
    (∃ lines, (PrintLog (operation T env) A K st).state.buf = st.buf ++ lines)
    ∧ (PrintLog (operation T env) A K st).state.stdout =
        if (PrintLog (operation T env) A K st).value?.isSome = true
        then st.stdout ++ (PrintLog (operation T env) A K st).state.buf
        else st.stdout := by
  rw [PrintLog_eq, operation_eq_runService]
  obtain ⟨⟨lines, hb⟩, hs⟩ := runService_appends T env A K
    { st with buf := st.buf ++ logLine "apis.go:147" ("Running PrintLog function" ++ "\n") }
  generalize runService T env A K
    { st with buf := st.buf ++ logLine "apis.go:147" ("Running PrintLog function" ++ "\n") } = r
    at hb hs
  cases r with
  | ret r s =>
    simp only [Result.state] at hb hs
    refine ⟨⟨logLine "apis.go:147" ("Running PrintLog function" ++ "\n") ++ lines, ?_⟩, ?_⟩
    · simp only [Result.state, hb, String.append_assoc]
    · simp only [Result.state, Result.value?, Option.isSome_some, if_true, hs]
  | fatal s =>
    simp only [Result.state] at hb hs
    refine ⟨⟨logLine "apis.go:147" ("Running PrintLog function" ++ "\n") ++ lines, ?_⟩, ?_⟩
    · simp only [Result.state, hb, String.append_assoc]
    · simp [Result.state, Result.value?, hs]
  | panic m s =>
    simp only [Result.state] at hb hs
    refine ⟨⟨logLine "apis.go:147" ("Running PrintLog function" ++ "\n") ++ lines, ?_⟩, ?_⟩
    · simp only [Result.state, hb, String.append_assoc]
    · simp [Result.state, Result.value?, hs]

set_option maxRecDepth 100000 in
/-- C10 (counterexample): `PrintLog(Web, ...)` is called a second time in a process
whose first such call has returned. The second call returns too; during it exactly the
five lines `logged` are added to the buffer, yet the text it writes to standard output is
the whole buffer left by the first call followed by those lines, which is a different
text, since the first call left the buffer non-empty. -/
theorem PrintLog_second_call_reprints_first :
    ∃ logged written : String,
      logged = "INFO: apis.go:147: Running PrintLog function\n"
        ++ "INFO: apis.go:77: Running web function.\n"
        ++ "INFO: apis.go:71: Composed URL: https://dapi.kakao.com/v2/search/web?query=cats\n"
        ++ "INFO: apis.go:30: Header: map[Authorization:[KakaoAK abc123]]\n"
        ++ "INFO: apis.go:42: resp.Body: \x7b\x7d\n"
      ∧ (PrintLog (Web (answering "\x7b\x7d")) "KakaoAK abc123" "cats" afterOneCall).value?
          = some "\x7b\x7d"
      ∧ (PrintLog (Web (answering "\x7b\x7d")) "KakaoAK abc123" "cats" afterOneCall).state.buf
          = afterOneCall.buf ++ logged
      ∧ (PrintLog (Web (answering "\x7b\x7d")) "KakaoAK abc123" "cats" afterOneCall).state.stdout
          = afterOneCall.stdout ++ written
      ∧ written = afterOneCall.buf ++ logged
      ∧ afterOneCall.buf = logged
      ∧ written ≠ logged := by
  refine ⟨_, _, rfl, by decide, by decide, by decide, rfl, by decide, by decide⟩

/-! ## What `decodeJSON` returns -/

theorem toGo_not_struct (j : Json) (v : GoValue) (h : j.toGo = some v) : v.isStruct = false := by
  cases j with
  | null => simp only [Json.toGo, Option.some.injEq] at h; subst h; rfl
  | bool b => simp only [Json.toGo, Option.some.injEq] at h; subst h; rfl
  | num lit =>
    simp only [Json.toGo] at h
    split at h
    · simp only [Option.some.injEq] at h; subst h; rfl
    · cases h
  | str s => simp only [Json.toGo, Option.some.injEq] at h; subst h; rfl
  | arr elems =>
    simp only [Json.toGo] at h
    split at h
    · simp only [Option.some.injEq] at h; subst h; rfl
    · cases h
  | obj members =>
    simp only [Json.toGo] at h
    split at h
    · simp only [Option.some.injEq] at h; subst h; rfl
    · cases h

theorem Unmarshal_not_struct (b : String) (R v : GoValue) (h : json.Unmarshal b R = .ok v) :
    v.isStruct = false := by
  unfold json.Unmarshal at h
  split at h
  · cases h
  · split at h
    · cases h
    · cases h
      exact toGo_not_struct _ _ (by assumption)

/-- C4 (code on all inputs): whatever bytes `decodeJSON` is given together with the zero
value of a response struct, a value it returns is never of a response struct type; for
instance on an object with a `meta` member it returns a generic map. -/
theorem decodeJSON_never_returns_struct (T : Shape) (b : String) (st : State) :
    ((decodeJSON (.struct T) b st).value?.map GoValue.isStruct).getD false = false
    ∧ decodeJSON (.struct T) "\x7b\"meta\":\x7b\"is_end\":true\x7d\x7d" st
        = Result.ret (.map [("meta", .map [("is_end", .bool true)])]) st := by
  constructor
  · rw [decodeJSON_eq]
    cases h : json.Unmarshal b (.struct T) with
    | error err => rfl
    | ok v =>
      simp only [Result.value?, Option.map_some', Option.getD_some]
      exact Unmarshal_not_struct _ _ _ h
  · rw [decodeJSON_eq]
    rfl

/-- C6 (code at the failing inputs): for every shape, `decodeJSON` given the zero value of
the response struct and the text of an empty object returns normally, logging nothing;
the value it returns is an empty generic map, which is not a value of the struct type.
And on the well-formed object `{"x":1e400}`, which has none of the shape's fields, it ends
in `logger.Fatal`, because the number of the unknown member is converted to float64. -/
theorem decodeJSON_empty_object (T : Shape) (st : State) :
    decodeJSON (.struct T) "\x7b\x7d" st = Result.ret (.map []) st
    ∧ (GoValue.map []).hasType T = false
    ∧ (decodeJSON (.struct T) "\x7b\"x\":1e400\x7d" st).isFatal = true := by
  refine ⟨?_, rfl, ?_⟩
  · rw [decodeJSON_eq]
    rfl
  · rw [decodeJSON_eq]
    rfl

/-- C3 (code at the failing input): a payload whose count is the integer 2^53 + 1 is
decoded without failure, and encoding the decoded value yields the count 2^53: the
number went through float64. Decoding and encoding that output again returns it
unchanged. -/
theorem recode_rounds_large_integer (T : Shape) (env : Env) (st : State) :
    recode T env "\x7b\"meta\":\x7b\"total_count\":9007199254740993\x7d\x7d" st
      = Result.ret "\x7b\"meta\":\x7b\"total_count\":9007199254740992\x7d\x7d" st
    ∧ recode T env "\x7b\"meta\":\x7b\"total_count\":9007199254740992\x7d\x7d" st
      = Result.ret "\x7b\"meta\":\x7b\"total_count\":9007199254740992\x7d\x7d" st := by
  constructor
  · rw [recode_eq]
    rfl
  · rw [recode_eq]
    rfl

/-! ## The scanner accepts only what the JSON grammar derives -/

theorem skipSpace_ws (s : List Char) : Ws s (skipSpace s) := by
  induction s with
  | nil => exact Ws.done []
  | cons c cs ih =>
    unfold skipSpace
    split
    · rename_i h
      refine Ws.skip c cs _ ?_ ih
      simp only [isSpace, Bool.or_eq_true, beq_iff_eq] at h
      unfold IsWs
      tauto
    · exact Ws.done _

theorem Ws_trans {s t r : List Char} (h1 : Ws s t) (h2 : Ws t r) : Ws s r := by
  induction h1 with
  | done _ => exact h2
  | skip c s t hc _ ih => exact Ws.skip c s _ hc (ih h2)

theorem isDigit_iff (c : Char) : isDigit c = true ↔ IsDigitChar c := by
  simp [isDigit, IsDigitChar]

theorem takeDigits_nil (s : List Char) (h : (takeDigits s).1 = []) : (takeDigits s).2 = s := by
  cases s with
  | nil => rfl
  | cons c cs =>
    unfold takeDigits at h ⊢
    split
    · rename_i hc
      rw [if_pos hc] at h
      cases h
    · rfl

theorem takeDigits_sound (s : List Char) (h : (takeDigits s).1 ≠ []) :
    Digits s (takeDigits s).2 := by
  induction s with
  | nil => exact absurd rfl h
  | cons c cs ih =>
    unfold takeDigits at h ⊢
    by_cases hc : isDigit c = true
    · rw [if_pos hc]
      by_cases he : (takeDigits cs).1 = []
      · rw [takeDigits_nil cs he]
        exact Digits.one c cs ((isDigit_iff c).1 hc)
      · exact Digits.more c cs _ ((isDigit_iff c).1 hc) (ih he)
    · rw [if_neg hc] at h
      exact absurd rfl h

theorem scanInt_sound (s ds r : List Char) (h : scanInt s = some (ds, r)) : IntPart s r := by
  cases s with
  | nil => simp [scanInt] at h
  | cons c cs =>
    unfold scanInt at h
    simp only [] at h
    by_cases h0 : c = '0'
    · rw [if_pos h0] at h
      simp only [Option.some.injEq, Prod.mk.injEq] at h
      rw [h0, ← h.2]
      exact IntPart.zero _
    · rw [if_neg h0] at h
      by_cases hc : isDigit c = true
      · rw [if_pos hc] at h
        simp only [Option.some.injEq] at h
        have h2 : (takeDigits (c :: cs)).2 = r := by rw [h]
        have hd : IsDigitChar c := (isDigit_iff c).1 hc
        unfold takeDigits at h2
        rw [if_pos hc] at h2
        simp only [] at h2
        rw [← h2]
        by_cases he : (takeDigits cs).1 = []
        · rw [takeDigits_nil cs he]
          exact IntPart.single c cs hd h0
        · exact IntPart.several c cs _ hd h0 (takeDigits_sound cs he)
      · rw [if_neg hc] at h
        cases h

theorem scanFrac_sound (s ds r : List Char) (h : scanFrac s = some (ds, r)) : FracPart s r := by
  cases s with
  | nil =>
    simp only [scanFrac, Option.some.injEq, Prod.mk.injEq] at h
    rw [← h.2]
    exact FracPart.absent _
  | cons c cs =>
    unfold scanFrac at h
    simp only [] at h
    by_cases hp : c = '.'
    · rw [if_pos hp] at h
      by_cases he : (takeDigits cs).1 = []
      · rw [if_pos he] at h
        cases h
      · rw [if_neg he] at h
        simp only [Option.some.injEq] at h
        have h2 : (takeDigits cs).2 = r := by rw [h]
        rw [hp, ← h2]
        exact FracPart.present cs _ (takeDigits_sound cs he)
    · rw [if_neg hp] at h
      simp only [Option.some.injEq, Prod.mk.injEq] at h
      rw [← h.2]
      exact FracPart.absent _

theorem scanExp_sound (s : List Char) (x : Option (Bool × List Char)) (r : List Char)
    (h : scanExp s = some (x, r)) : ExpPart s r := by
  cases s with
  | nil =>
    simp only [scanExp, Option.some.injEq, Prod.mk.injEq] at h
    rw [← h.2]
    exact ExpPart.absent _
  | cons c cs =>
    unfold scanExp at h
    simp only [] at h
    by_cases hx : c = 'e' ∨ c = 'E'
    · rw [if_pos hx] at h
      cases cs with
      | nil => simp [takeDigits] at h
      | cons d ds =>
        simp only [] at h
        by_cases hm : d = '-'
        · rw [if_pos hm] at h
          simp only [] at h
          by_cases he : (takeDigits ds).1 = []
          · rw [if_pos he] at h
            cases h
          · rw [if_neg he] at h
            simp only [Option.some.injEq, Prod.mk.injEq] at h
            rw [← h.2]
            exact ExpPart.signed c d ds _ hx (Or.inr hm) (takeDigits_sound ds he)
        · rw [if_neg hm] at h
          by_cases hp : d = '+'
          · rw [if_pos hp] at h
            simp only [] at h
            by_cases he : (takeDigits ds).1 = []
            · rw [if_pos he] at h
              cases h
            · rw [if_neg he] at h
              simp only [Option.some.injEq, Prod.mk.injEq] at h
              rw [← h.2]
              exact ExpPart.signed c d ds _ hx (Or.inl hp) (takeDigits_sound ds he)
          · rw [if_neg hp] at h
            simp only [] at h
            by_cases he : (takeDigits (d :: ds)).1 = []
            · rw [if_pos he] at h
              cases h
            · rw [if_neg he] at h
              simp only [Option.some.injEq, Prod.mk.injEq] at h
              rw [← h.2]
              exact ExpPart.unsigned c (d :: ds) _ hx (takeDigits_sound (d :: ds) he)
    · rw [if_neg hx] at h
      simp only [Option.some.injEq, Prod.mk.injEq] at h
      rw [← h.2]
      exact ExpPart.absent _

theorem scanNumber_rest (neg : Bool) (s1 : List Char) (lit : NumLit) (r : List Char)
    (h : (match scanInt s1 with
      | none => none
      | some (int, s2) =>
        match scanFrac s2 with
        | none => none
        | some (frac, s3) =>
          match scanExp s3 with
          | none => none
          | some (exp, s4) => some ((⟨neg, int, frac, exp⟩ : NumLit), s4)) = some (lit, r)) :
    ∃ s2 s3, IntPart s1 s2 ∧ FracPart s2 s3 ∧ ExpPart s3 r := by
  cases hi : scanInt s1 with
  | none => rw [hi] at h; cases h
  | some p1 =>
    obtain ⟨int, s2⟩ := p1
    rw [hi] at h
    simp only [] at h
    cases hf : scanFrac s2 with
    | none => rw [hf] at h; cases h
    | some p2 =>
      obtain ⟨frac, s3⟩ := p2
      rw [hf] at h
      simp only [] at h
      cases hx : scanExp s3 with
      | none => rw [hx] at h; cases h
      | some p3 =>
        obtain ⟨exp, s4⟩ := p3
        rw [hx] at h
        simp only [Option.some.injEq, Prod.mk.injEq] at h
        rw [← h.2]
        exact ⟨s2, s3, scanInt_sound _ _ _ hi, scanFrac_sound _ _ _ hf, scanExp_sound _ _ _ hx⟩

theorem scanNumber_sound (s : List Char) (lit : NumLit) (r : List Char)
    (h : scanNumber s = some (lit, r)) : Number s r := by
  unfold scanNumber at h
  cases s with
  | nil =>
    simp only [] at h
    obtain ⟨s2, s3, hi, hf, hx⟩ := scanNumber_rest false [] lit r h
    exact Number.plain _ s2 s3 _ hi hf hx
  | cons c cs =>
    simp only [] at h
    by_cases hm : c = '-'
    · rw [if_pos hm] at h
      simp only [] at h
      obtain ⟨s2, s3, hi, hf, hx⟩ := scanNumber_rest true cs lit r h
      rw [hm]
      exact Number.minus _ s2 s3 _ hi hf hx
    · rw [if_neg hm] at h
      simp only [] at h
      obtain ⟨s2, s3, hi, hf, hx⟩ := scanNumber_rest false (c :: cs) lit r h
      exact Number.plain _ s2 s3 _ hi hf hx

theorem hexVal_sound (c : Char) (n : Nat) (h : hexVal c = some n) : IsHexChar c := by
  unfold hexVal at h
  by_cases h1 : isDigit c = true
  · exact Or.inl ((isDigit_iff c).1 h1)
  · rw [if_neg h1] at h
    by_cases h2 : 'a'.toNat ≤ c.toNat ∧ c.toNat ≤ 'f'.toNat
    · exact Or.inr (Or.inl h2)
    · rw [if_neg h2] at h
      by_cases h3 : 'A'.toNat ≤ c.toNat ∧ c.toNat ≤ 'F'.toNat
      · exact Or.inr (Or.inr h3)
      · rw [if_neg h3] at h
        cases h

theorem hex4_sound (a b c d : Char) (n : Nat) (h : hex4 a b c d = some n) :
    IsHexChar a ∧ IsHexChar b ∧ IsHexChar c ∧ IsHexChar d := by
  unfold hex4 at h
  cases ha : hexVal a with
  | none => simp [ha] at h
  | some x =>
    cases hb : hexVal b with
    | none => simp [ha, hb] at h
    | some y =>
      cases hc : hexVal c with
      | none => simp [ha, hb, hc] at h
      | some z =>
        cases hd : hexVal d with
        | none => simp [ha, hb, hc, hd] at h
        | some w =>
          exact ⟨hexVal_sound _ _ ha, hexVal_sound _ _ hb, hexVal_sound _ _ hc, hexVal_sound _ _ hd⟩

theorem simpleEscape_sound (e ch : Char) (h : simpleEscape e = some ch) : IsEscapeLetter e := by
  unfold simpleEscape at h
  unfold IsEscapeLetter
  by_cases h1 : e = '"'
  · tauto
  by_cases h2 : e = '\\'
  · tauto
  by_cases h3 : e = '/'
  · tauto
  by_cases h4 : e = 'b'
  · tauto
  by_cases h5 : e = 'f'
  · tauto
  by_cases h6 : e = 'n'
  · tauto
  by_cases h7 : e = 'r'
  · tauto
  by_cases h8 : e = 't'
  · tauto
  rw [if_neg h1, if_neg h2, if_neg h3, if_neg h4, if_neg h5, if_neg h6, if_neg h7, if_neg h8] at h
  cases h

theorem pushUnit_some (u : StrUnit) (x : Option (List StrUnit × List Char))
    (us : List StrUnit) (r : List Char) (h : pushUnit u x = some (us, r)) :
    ∃ us', x = some (us', r) := by
  cases x with
  | none => cases h
  | some p =>
    obtain ⟨us', r'⟩ := p
    simp only [pushUnit, Option.some.injEq, Prod.mk.injEq] at h
    exact ⟨us', by rw [h.2]⟩

theorem scanString_sound : ∀ (n : Nat) (s : List Char), s.length ≤ n →
    ∀ (us : List StrUnit) (r : List Char), scanString s = some (us, r) → StrBody s r := by
  intro n
  induction n with
  | zero =>
    intro s hs us r h
    cases s with
    | nil => simp [scanString] at h
    | cons c cs => simp at hs
  | succ n ih =>
    intro s hs us r h
    cases s with
    | nil => simp [scanString] at h
    | cons c cs =>
      unfold scanString at h
      by_cases hq : c = '"'
      · rw [if_pos hq] at h
        simp only [Option.some.injEq, Prod.mk.injEq] at h
        rw [hq, ← h.2]
        exact StrBody.close _
      · rw [if_neg hq] at h
        by_cases hb : c = '\\'
        · rw [if_pos hb] at h
          cases cs with
          | nil => cases h
          | cons e r1 =>
            simp only [] at h
            by_cases hu : e = 'u'
            · rw [if_pos hu] at h
              match r1, h, hs with
              | h1 :: h2 :: h3 :: h4 :: r2, h, hs =>
                simp only [] at h
                cases hh : hex4 h1 h2 h3 h4 with
                | none => rw [hh] at h; cases h
                | some k =>
                  rw [hh] at h
                  simp only [] at h
                  obtain ⟨us', hus⟩ := pushUnit_some _ _ _ _ h
                  obtain ⟨x1, x2, x3, x4⟩ := hex4_sound _ _ _ _ _ hh
                  rw [hb, hu]
                  refine StrBody.unicode h1 h2 h3 h4 r2 r x1 x2 x3 x4 (ih r2 ?_ us' r hus)
                  simp only [List.length_cons] at hs
                  omega
              | [], h, _ => cases h
              | [_], h, _ => cases h
              | [_, _], h, _ => cases h
              | [_, _, _], h, _ => cases h
            · rw [if_neg hu] at h
              cases he : simpleEscape e with
              | none => rw [he] at h; cases h
              | some ch =>
                rw [he] at h
                simp only [] at h
                obtain ⟨us', hus⟩ := pushUnit_some _ _ _ _ h
                rw [hb]
                refine StrBody.escape e r1 r (simpleEscape_sound _ _ he) (ih r1 ?_ us' r hus)
                simp only [List.length_cons] at hs
                omega
        · rw [if_neg hb] at h
          by_cases hl : c.toNat < 0x20
          · rw [if_pos hl] at h
            cases h
          · rw [if_neg hl] at h
            obtain ⟨us', hus⟩ := pushUnit_some _ _ _ _ h
            refine StrBody.unescaped c cs r (by omega) hq hb (ih cs ?_ us' r hus)
            simp only [List.length_cons] at hs
            omega

theorem JMembers_prepend {s t r : List Char} (hw : Ws s t) (h : JMembers t r) : JMembers s r := by
  cases h with
  | last _ s1 s2 s3 s4 s5 _ a b c d e f => exact JMembers.last s s1 s2 s3 s4 s5 r (Ws_trans hw a) b c d e f
  | more _ s1 s2 s3 s4 s5 s6 _ a b c d e f g =>
    exact JMembers.more s s1 s2 s3 s4 s5 s6 r (Ws_trans hw a) b c d e f g

theorem JElements_prepend {s t r : List Char} (hw : Ws s t) (h : JElements t r) :
    JElements s r := by
  cases h with
  | last _ s1 s2 _ a b c => exact JElements.last s s1 s2 r (Ws_trans hw a) b c
  | more _ s1 s2 s3 _ a b c d => exact JElements.more s s1 s2 s3 r (Ws_trans hw a) b c d

theorem skipSpace_ws_of_eq {s t : List Char} (h : skipSpace s = t) : Ws s t := by
  rw [← h]
  exact skipSpace_ws s

theorem literal_sound (s : List Char) (v : Json) (r : List Char)
    (h : (match s with
      | 't' :: 'r' :: 'u' :: 'e' :: r1 => some (Json.bool true, r1)
      | 'f' :: 'a' :: 'l' :: 's' :: 'e' :: r1 => some (Json.bool false, r1)
      | 'n' :: 'u' :: 'l' :: 'l' :: r1 => some (Json.null, r1)
      | _ => none) = some (v, r)) : JValue s r := by
  split at h
  · simp only [Option.some.injEq, Prod.mk.injEq] at h
    rw [← h.2]
    exact JValue.true _
  · simp only [Option.some.injEq, Prod.mk.injEq] at h
    rw [← h.2]
    exact JValue.false _
  · simp only [Option.some.injEq, Prod.mk.injEq] at h
    rw [← h.2]
    exact JValue.null _
  · cases h

theorem parse_sound (fuel : Nat) :
    (∀ depth s v r, parseValue fuel depth s = some (v, r) → JValue s r)
    ∧ (∀ depth s ms r, parseMembers fuel depth s = some (ms, r) → JMembers s r)
    ∧ (∀ depth s es r, parseElements fuel depth s = some (es, r) → JElements s r) := by
  induction fuel with
  | zero =>
    refine ⟨?_, ?_, ?_⟩
    · intro depth s v r h
      rw [parseValue] at h
      cases h
    · intro depth s ms r h
      rw [parseMembers] at h
      cases h
    · intro depth s es r h
      rw [parseElements] at h
      cases h
  | succ fuel ih =>
    obtain ⟨ihv, ihm, ihe⟩ := ih
    refine ⟨?_, ?_, ?_⟩
    · intro depth s v r h
      cases s with
      | nil =>
        rw [parseValue] at h
        · cases h
        · intro hz; cases hz
      | cons c cs =>
        rw [parseValue] at h
        by_cases hobj : c = '{'
        · rw [if_pos hobj] at h
          by_cases hd : depth ≥ maxNestingDepth
          · rw [if_pos hd] at h; cases h
          · rw [if_neg hd] at h
            cases hsk : skipSpace cs with
            | nil => rw [hsk] at h; cases h
            | cons d r1 =>
              rw [hsk] at h
              simp only [] at h
              have hw : Ws cs (d :: r1) := skipSpace_ws_of_eq hsk
              by_cases hcl : d = '}'
              · rw [if_pos hcl] at h
                simp only [Option.some.injEq, Prod.mk.injEq] at h
                rw [hobj, ← h.2]
                rw [hcl] at hw
                exact JValue.emptyObject cs r1 hw
              · rw [if_neg hcl] at h
                cases hm : parseMembers fuel (depth + 1) (d :: r1) with
                | none => rw [hm] at h; cases h
                | some p =>
                  obtain ⟨ms, r2⟩ := p
                  rw [hm] at h
                  simp only [Option.some.injEq, Prod.mk.injEq] at h
                  rw [hobj, ← h.2]
                  exact JValue.object cs r2 (JMembers_prepend hw (ihm _ _ _ _ hm))
        · rw [if_neg hobj] at h
          by_cases harr : c = '['
          · rw [if_pos harr] at h
            by_cases hd : depth ≥ maxNestingDepth
            · rw [if_pos hd] at h; cases h
            · rw [if_neg hd] at h
              cases hsk : skipSpace cs with
              | nil => rw [hsk] at h; cases h
              | cons d r1 =>
                rw [hsk] at h
                simp only [] at h
                have hw : Ws cs (d :: r1) := skipSpace_ws_of_eq hsk
                by_cases hcl : d = ']'
                · rw [if_pos hcl] at h
                  simp only [Option.some.injEq, Prod.mk.injEq] at h
                  rw [harr, ← h.2]
                  rw [hcl] at hw
                  exact JValue.emptyArray cs r1 hw
                · rw [if_neg hcl] at h
                  cases hm : parseElements fuel (depth + 1) (d :: r1) with
                  | none => rw [hm] at h; cases h
                  | some p =>
                    obtain ⟨es, r2⟩ := p
                    rw [hm] at h
                    simp only [Option.some.injEq, Prod.mk.injEq] at h
                    rw [harr, ← h.2]
                    exact JValue.array cs r2 (JElements_prepend hw (ihe _ _ _ _ hm))
          · rw [if_neg harr] at h
            by_cases hstr : c = '"'
            · rw [if_pos hstr] at h
              cases hs : scanString cs with
              | none => rw [hs] at h; cases h
              | some p =>
                obtain ⟨us, r1⟩ := p
                rw [hs] at h
                simp only [Option.some.injEq, Prod.mk.injEq] at h
                rw [hstr, ← h.2]
                exact JValue.string cs r1 (scanString_sound _ cs (le_refl _) us r1 hs)
            · rw [if_neg hstr] at h
              by_cases hnum : c = '-' ∨ isDigit c = true
              · rw [if_pos hnum] at h
                cases hs : scanNumber (c :: cs) with
                | none => rw [hs] at h; cases h
                | some p =>
                  obtain ⟨lit, r1⟩ := p
                  rw [hs] at h
                  simp only [Option.some.injEq, Prod.mk.injEq] at h
                  rw [← h.2]
                  exact JValue.number _ r1 (scanNumber_sound _ lit r1 hs)
              · rw [if_neg hnum] at h
                exact literal_sound _ _ _ h
    · intro depth s ms r h
      cases s with
      | nil =>
        rw [parseMembers] at h
        · cases h
        · intro hz; cases hz
      | cons c cs =>
        rw [parseMembers] at h
        by_cases hq : c = '"'
        · rw [if_pos hq] at h
          cases hs : scanString cs with
          | none => rw [hs] at h; cases h
          | some p =>
            obtain ⟨us, r1⟩ := p
            rw [hs] at h
            simp only [] at h
            have hkey : StrBody cs r1 := scanString_sound _ cs (le_refl _) us r1 hs
            cases hsk : skipSpace r1 with
            | nil => rw [hsk] at h; cases h
            | cons d r2 =>
              rw [hsk] at h
              simp only [] at h
              have hw1 : Ws r1 (d :: r2) := skipSpace_ws_of_eq hsk
              by_cases hcol : d = ':'
              · rw [if_pos hcol] at h
                rw [hcol] at hw1
                cases hv : parseValue fuel depth (skipSpace r2) with
                | none => rw [hv] at h; cases h
                | some pv =>
                  obtain ⟨v, r3⟩ := pv
                  rw [hv] at h
                  simp only [] at h
                  have hval : JValue (skipSpace r2) r3 := ihv _ _ _ _ hv
                  cases hsk3 : skipSpace r3 with
                  | nil => rw [hsk3] at h; cases h
                  | cons e r4 =>
                    rw [hsk3] at h
                    simp only [] at h
                    have hw3 : Ws r3 (e :: r4) := skipSpace_ws_of_eq hsk3
                    by_cases hcl : e = '}'
                    · rw [if_pos hcl] at h
                      simp only [Option.some.injEq, Prod.mk.injEq] at h
                      rw [hcl] at hw3
                      rw [hq, ← h.2]
                      exact JMembers.last _ cs r1 r2 (skipSpace r2) r3 r4 (Ws.done _) hkey hw1
                        (skipSpace_ws r2) hval hw3
                    · rw [if_neg hcl] at h
                      by_cases hcm : e = ','
                      · rw [if_pos hcm] at h
                        rw [hcm] at hw3
                        cases hm : parseMembers fuel depth (skipSpace r4) with
                        | none => rw [hm] at h; cases h
                        | some pm =>
                          obtain ⟨ms', r5⟩ := pm
                          rw [hm] at h
                          simp only [Option.some.injEq, Prod.mk.injEq] at h
                          rw [hq, ← h.2]
                          exact JMembers.more _ cs r1 r2 (skipSpace r2) r3 r4 r5 (Ws.done _) hkey hw1
                            (skipSpace_ws r2) hval hw3
                            (JMembers_prepend (skipSpace_ws r4) (ihm _ _ _ _ hm))
                      · rw [if_neg hcm] at h
                        cases h
              · rw [if_neg hcol] at h
                cases h
        · rw [if_neg hq] at h
          cases h
    · intro depth s es r h
      rw [parseElements] at h
      cases hv : parseValue fuel depth s with
      | none => rw [hv] at h; cases h
      | some pv =>
        obtain ⟨v, r1⟩ := pv
        rw [hv] at h
        simp only [] at h
        have hval : JValue s r1 := ihv _ _ _ _ hv
        cases hsk : skipSpace r1 with
        | nil => rw [hsk] at h; cases h
        | cons e r2 =>
          rw [hsk] at h
          simp only [] at h
          have hw : Ws r1 (e :: r2) := skipSpace_ws_of_eq hsk
          by_cases hcl : e = ']'
          · rw [if_pos hcl] at h
            simp only [Option.some.injEq, Prod.mk.injEq] at h
            rw [hcl] at hw
            rw [← h.2]
            exact JElements.last s s r1 r2 (Ws.done _) hval hw
          · rw [if_neg hcl] at h
            by_cases hcm : e = ','
            · rw [if_pos hcm] at h
              rw [hcm] at hw
              cases hm : parseElements fuel depth (skipSpace r2) with
              | none => rw [hm] at h; cases h
              | some pm =>
                obtain ⟨es', r3⟩ := pm
                rw [hm] at h
                simp only [Option.some.injEq, Prod.mk.injEq] at h
                rw [← h.2]
                exact JElements.more s s r1 r2 r3 (Ws.done _) hval hw
                  (JElements_prepend (skipSpace_ws r2) (ihe _ _ _ _ hm))
            · rw [if_neg hcm] at h
              cases h

theorem parseJSON_sound (b : List Char) (j : Json) (h : parseJSON b = some j) :
    JsonText b := by
  unfold parseJSON at h
  cases hv : parseValue (b.length + 1) 0 (skipSpace b) with
  | none => rw [hv] at h; cases h
  | some p =>
    obtain ⟨v, r⟩ := p
    rw [hv] at h
    simp only [] at h
    by_cases hr : skipSpace r = []
    · exact ⟨skipSpace b, r, skipSpace_ws b, (parse_sound _).1 _ _ _ _ hv, skipSpace_ws_of_eq hr⟩
    · rw [if_neg hr] at h
      cases h

/-! ## Malformed input -/

theorem Unmarshal_ok_jsonText (b : String) (R v : GoValue) (h : json.Unmarshal b R = .ok v) :
    JsonText b.toList := by
  unfold json.Unmarshal at h
  cases hp : parseJSON b.toList with
  | none => rw [hp] at h; cases h
  | some j => exact parseJSON_sound _ j hp

theorem Ws_nil_inv {r : List Char} (h : Ws [] r) : r = [] := by
  cases h
  rfl

theorem Ws_cons_inv {c : Char} {s r : List Char} (h : Ws (c :: s) r) (hc : ¬ IsWs c) :
    r = c :: s := by
  cases h with
  | done => rfl
  | skip _ _ _ hw _ => exact absurd hw hc

theorem JValue_nil_inv {r : List Char} (h : JValue [] r) : False := by
  cases h with
  | number _ _ hn =>
    cases hn with
    | plain _ _ _ _ hi _ _ => cases hi

/-- The truncated text `{"foo":` does not match the JSON grammar. -/
theorem truncated_not_jsonText : ¬ JsonText "\x7b\"foo\":".toList := by
  rintro ⟨s1, s2, hw, hv, -⟩
  have e1 := Ws_cons_inv hw (by simp [IsWs])
  subst e1
  have hkey : ∀ r, StrBody ['f', 'o', 'o', '"', ':'] r → r = [':'] := by
    intro r h
    cases h with
    | unescaped _ _ _ _ _ _ h =>
      cases h with
      | unescaped _ _ _ _ _ _ h =>
        cases h with
        | unescaped _ _ _ _ _ _ h =>
          cases h with
          | close => rfl
          | unescaped _ _ _ _ hq _ _ => exact absurd rfl hq
  have hmem : ∀ r, JMembers ['"', 'f', 'o', 'o', '"', ':'] r → False := by
    intro r h
    cases h with
    | last _ t1 t2 t3 t4 t5 _ a b c d e f =>
      have ea := Ws_cons_inv a (by simp [IsWs])
      cases ea
      have eb := hkey _ b
      subst eb
      have ec := Ws_cons_inv c (by simp [IsWs])
      cases ec
      have ed := Ws_nil_inv d
      subst ed
      exact JValue_nil_inv e
    | more _ t1 t2 t3 t4 t5 t6 _ a b c d e f g =>
      have ea := Ws_cons_inv a (by simp [IsWs])
      cases ea
      have eb := hkey _ b
      subst eb
      have ec := Ws_cons_inv c (by simp [IsWs])
      cases ec
      have ed := Ws_nil_inv d
      subst ed
      exact JValue_nil_inv e
  cases hv with
  | number _ _ hn =>
    cases hn with
    | plain _ _ _ _ hi _ _ =>
      cases hi with
      | single _ _ hd _ => simp [IsDigitChar] at hd
      | several _ _ _ hd _ _ => simp [IsDigitChar] at hd
  | emptyObject _ _ h =>
    have e := Ws_cons_inv h (by simp [IsWs])
    cases e
  | object _ _ h => exact hmem _ h

/-- The empty text does not match the JSON grammar. -/
theorem empty_not_jsonText : ¬ JsonText "".toList := by
  rintro ⟨s1, s2, hw, hv, -⟩
  have e1 := Ws_nil_inv hw
  subst e1
  exact JValue_nil_inv hv

/-- C5 (as amended): for every shape and every byte string that does not match the JSON
grammar read on bytes (inside string literals any byte from 0x20 on other than quote and
backslash is admitted, valid UTF-8 or not), `decodeJSON` ends in `logger.Fatal` in every
state and so returns no value; and an operation whose call of `client.Do` yields such a
body returns no string. -/
theorem decodeJSON_malformed_is_fatal (T : Shape) (b : Bytes)
    (h : ¬ JsonText b.toList) :
    (∀ st, (decodeJSON (.struct T) b st).isFatal = true
      ∧ (decodeJSON (.struct T) b st).value? = none)
    ∧ ∀ env A K st,
        (client.exchange env st.wire (serviceRequest T A K)).2 = .response (.complete b) →
        (operation T env A K st).value? = none := by
  have herr : ∀ R, ∃ err, json.Unmarshal b R = .error err := by
    intro R
    cases hu : json.Unmarshal b R with
    | error err => exact ⟨err, rfl⟩
    | ok v => exact absurd (Unmarshal_ok_jsonText b R v hu) h
  constructor
  · intro st
    obtain ⟨err, he⟩ := herr (.struct T)
    rw [decodeJSON_eq, he]
    exact ⟨rfl, rfl⟩
  · intro env A K st ht
    rw [operation_eq_runService, runService_eq, getResult_eq]
    cases hreq : (http.NewRequest env "GET" (serviceURL T K)).1 with
    | none => rfl
    | some req0 =>
      have hr : req0 = { method := "GET", url := serviceURL T K, header := [] } := by
        rw [NewRequest_fst] at hreq
        split at hreq
        · cases hreq
        · split at hreq
          · cases hreq
            rfl
          · cases hreq
      subst hr
      simp only []
      have hadd : Request.mk "GET" (serviceURL T K) (Header.add [] "Authorization" A)
          = serviceRequest T A K := rfl
      rw [hadd, ht]
      simp only []
      obtain ⟨err, he⟩ := herr (.struct T)
      rw [recode_eq, he]
      rfl

/-- Witness for C5 (as amended): the truncated text `{"foo":` with the shape of `Web`,
and the empty text with the shape of `Cafe`. -/
theorem decodeJSON_malformed_is_fatal_witness :
    ((∀ st, (decodeJSON (.struct .WebResponse) "\x7b\"foo\":" st).isFatal = true
        ∧ (decodeJSON (.struct .WebResponse) "\x7b\"foo\":" st).value? = none)
      ∧ ∀ env A K st,
          (client.exchange env st.wire (serviceRequest .WebResponse A K)).2
            = .response (.complete "\x7b\"foo\":") →
          (operation .WebResponse env A K st).value? = none)
    ∧ ((∀ st, (decodeJSON (.struct .CafeResponse) "" st).isFatal = true
        ∧ (decodeJSON (.struct .CafeResponse) "" st).value? = none)
      ∧ ∀ env A K st,
          (client.exchange env st.wire (serviceRequest .CafeResponse A K)).2
            = .response (.complete "") →
          (operation .CafeResponse env A K st).value? = none) :=
  ⟨decodeJSON_malformed_is_fatal .WebResponse "\x7b\"foo\":" truncated_not_jsonText,
   decodeJSON_malformed_is_fatal .CafeResponse "" empty_not_jsonText⟩

set_option maxRecDepth 100000 in
/-- C5 (counterexample): the three bytes quote, 0xFF, quote are not well-formed JSON,
since 0xFF is not valid UTF-8; yet `decodeJSON` returns on them, with the string U+FFFD,
and `Web` answered with this body returns a string. -/
theorem decodeJSON_accepts_invalid_utf8 :
    ¬ WellFormedJSON "\"\xff\"".toList
    ∧ decodeJSON (.struct .WebResponse) "\"\xff\"" freshState
        = Result.ret (.string "\xef\xbf\xbd") freshState
    ∧ (decodeJSON (.struct .WebResponse) "\"\xff\"" freshState).isFatal = false
    ∧ (Web (answering "\"\xff\"") "KakaoAK abc123" "cats" freshState).value?
        = some "\"\xef\xbf\xbd\"" := by
  refine ⟨?_, ?_, ?_, by decide⟩
  · rintro ⟨hu, -⟩
    revert hu
    decide
  · rw [decodeJSON_eq]
    rfl
  · rw [decodeJSON_eq]
    rfl

end Daumapi
